import Mathlib

/-!
Verification development for the trading-app repository's two core
subsystems: the Binance market-data adapter
(`src/adapters/Binance/BinanceAdapter.ts`, the subscription multiplexer,
reconnection policy and dispatcher) and the position/PnL accounting worker
(`src/apps/web/src/workers/tradeAggregator.ts`).

JavaScript `Map` objects are modelled as association lists preserving
insertion order (`set` replaces in place, otherwise appends; `delete`
removes), `Set` objects as duplicate-free lists with append-on-add.
JavaScript numbers are modelled as rationals (`ℚ`); all arithmetic in the
claims is exact.  Callbacks are identified by numeric handles (function
identity in the source).  Wall-clock fields (`lastUpdate` via `Date.now()`,
message `id` via `Date.now()`) are environment noise never read by the
logic and are not carried in the state.
-/

namespace TradingApp

/-- Model of `Map.get`: first (unique) binding for a key. -/
def mapGet {α : Type} : List (String × α) → String → Option α
  | [], _ => none
  | (k, v) :: rest, key => if k = key then some v else mapGet rest key

/-- Model of `Map.set`: replace in place if the key is present, else append. -/
def mapSet {α : Type} : List (String × α) → String → α → List (String × α)
  | [], key, v => [(key, v)]
  | (k, w) :: rest, key, v =>
    if k = key then (key, v) :: rest else (k, w) :: mapSet rest key v

/-- Model of `Map.delete`: remove the binding for a key. -/
def mapDelete {α : Type} : List (String × α) → String → List (String × α)
  | [], _ => []
  | (k, v) :: rest, key =>
    if k = key then mapDelete rest key else (k, v) :: mapDelete rest key

/-- Model of `Set.add`: append if absent. -/
def setAdd (s : List String) (x : String) : List String :=
  if x ∈ s then s else s ++ [x]

/-- Model of `Set.delete`: remove an element. -/
def setDelete : List String → String → List String
  | [], _ => []
  | y :: rest, x => if y = x then setDelete rest x else y :: setDelete rest x

/-- Kernel-reducible form of `String.toLower` (`s.map Char.toLower`); the
equation `strToLower_eq_toLower` below identifies the two. -/
def strToLower (s : String) : String := ⟨s.data.map Char.toLower⟩

/-- Character-level worker for `splitChar`. -/
def splitCharAux (c : Char) : List Char → List Char → List (List Char)
  | [], acc => [acc.reverse]
  | x :: xs, acc =>
    if x = c then acc.reverse :: splitCharAux c xs []
    else splitCharAux c xs (x :: acc)

/-- Model of the JavaScript `String.prototype.split` with a one-character
separator (`"a:b:c".split(':') = ["a","b","c"]`, `"".split(':') = [""]`). -/
def splitChar (c : Char) (s : String) : List String :=
  (splitCharAux c s.data []).map String.mk

/-! ## BinanceAdapter (market-data subscription multiplexer)

Embedding of `BinanceAdapter` from the Binance adapter source file.
Callbacks are numeric handles compared by identity, as the source compares
function references.  `ws` is `none` when `this.ws === null`, `some false`
while the socket exists but is not OPEN, `some true` when OPEN; in every
state the source reaches, `isConnected = true` coincides with `ws = some
true`.  `socketsCreated` counts `new WebSocket(url)` constructions. -/

/-- The `StreamType` enum from the adapters module. -/
inductive StreamType
  | kline
  | depth
  | trade
deriving DecidableEq, Repr

/-- The string value of the `StreamType` enum member. -/
def StreamType.value : StreamType → String
  | .kline => "kline"
  | .depth => "depth"
  | .trade => "trade"

/-- A `StreamConfig`: symbol, stream type and optional kline interval. -/
structure StreamConfig where
  symbol : String
  streamType : StreamType
  interval : Option String
deriving DecidableEq, Repr

/-- The static `INTERVAL_MAP`: TradingView resolution → Binance interval. -/
def INTERVAL_MAP : String → Option String
  | "1" => some "1m"
  | "5" => some "5m"
  | "15" => some "15m"
  | "30" => some "30m"
  | "60" => some "1h"
  | "240" => some "4h"
  | "1D" => some "1d"
  | _ => none

/-- Embeds `getStreamName`: wire-level stream name for a subscription. -/
def getStreamName (cfg : StreamConfig) : String :=
  let symbolLower := strToLower cfg.symbol
  match cfg.streamType with
  | .kline =>
    let binanceInterval :=
      match cfg.interval with
      | some i => (INTERVAL_MAP i).getD i
      | none => "1m"
    symbolLower ++ "@kline_" ++ binanceInterval
  | .depth => symbolLower ++ "@depth20@100ms"
  | .trade => symbolLower ++ "@aggTrade"

/-- Embeds `getSubscriptionKey`: registry key (uses the original interval, not the mapped one). -/
def getSubscriptionKey (cfg : StreamConfig) : String :=
  cfg.symbol ++ "_" ++ cfg.streamType.value ++ "_" ++ (cfg.interval.getD "")

/-- Wire message method of `sendStreamMessage`. -/
inductive Method
  | subscribeMethod
  | unsubscribeMethod
deriving DecidableEq, Repr

/-- A `{method, params, id}` frame sent on the socket (`id` is wall clock, dropped). -/
structure WireMsg where
  method : Method
  params : List String
deriving DecidableEq, Repr

/-- Instance state of `BinanceAdapter`. -/
structure AdapterState where
  ws : Option Bool
  isConnected : Bool
  reconnectAttempts : Nat
  activeStreams : List String
  subscriptions : List (String × List Nat)
  connectingPromise : Bool
  socketsCreated : Nat
deriving DecidableEq, Repr

/-- A fresh adapter (constructor state). -/
def initialAdapterState : AdapterState :=
  { ws := none
    isConnected := false
    reconnectAttempts := 0
    activeStreams := []
    subscriptions := []
    connectingPromise := false
    socketsCreated := 0 }

/-- The `maxReconnectAttempts` field. -/
def maxReconnectAttempts : Nat := 5

/-- The `reconnectDelay` field (ms). -/
def reconnectDelay : Nat := 1000

/-- Embeds `sendStreamMessage`: emits the frame unless the socket is absent or not connected
(in which case it only logs a warning). -/
def sendStreamMessage (st : AdapterState) (method : Method) (streams : List String) :
    AdapterState × List WireMsg :=
  if st.ws.isNone ∨ st.isConnected = false then (st, [])
  else (st, [{ method := method, params := streams }])

/-- Embeds `subscribeToStream`. -/
def subscribeToStream (st : AdapterState) (streamName : String) :
    AdapterState × List WireMsg :=
  sendStreamMessage st .subscribeMethod [streamName]

/-- Embeds `unsubscribeFromStream`: additionally guarded on `readyState === OPEN`. -/
def unsubscribeFromStream (st : AdapterState) (streamName : String) :
    AdapterState × List WireMsg :=
  if st.ws ≠ some true then (st, [])
  else sendStreamMessage st .unsubscribeMethod [streamName]

/-- Embeds `subscribeToAllActiveStreams`. -/
def subscribeToAllActiveStreams (st : AdapterState) : AdapterState × List WireMsg :=
  if st.activeStreams = [] then (st, [])
  else sendStreamMessage st .subscribeMethod st.activeStreams

/-- Synchronous body of `connect()`: no-op when a socket exists and is connected,
otherwise constructs a new `WebSocket` (readyState CONNECTING). -/
def connectStart (st : AdapterState) : AdapterState :=
  if st.ws.isSome ∧ st.isConnected = true then st
  else { st with ws := some false, socketsCreated := st.socketsCreated + 1 }

/-- Embeds `ws.onopen`: marks connected, resets the attempt counter, resubscribes all
active streams; the promise chain from `subscribe` then clears `connectingPromise`. -/
def onOpen (st : AdapterState) : AdapterState × List WireMsg :=
  subscribeToAllActiveStreams
    { st with isConnected := true, reconnectAttempts := 0, ws := some true,
              connectingPromise := false }

/-- State effect of `ws.onclose` (reconnect scheduling is modelled separately). -/
def onCloseState (st : AdapterState) : AdapterState :=
  { st with isConnected := false }

/-- Embeds `subscribe(subscription)`. -/
def subscribe (st : AdapterState) (cfg : StreamConfig) (cb : Nat) :
    AdapterState × List WireMsg :=
  let streamName := getStreamName cfg
  let subscriptionKey := getSubscriptionKey cfg
  let streamSubscriptions := (mapGet st.subscriptions subscriptionKey).getD []
  if streamSubscriptions.contains cb then
    (st, [])
  else
    let streamSubscriptions := streamSubscriptions ++ [cb]
    let st := { st with subscriptions := mapSet st.subscriptions subscriptionKey streamSubscriptions }
    let isNewStream := ¬ streamName ∈ st.activeStreams
    let st := { st with activeStreams := setAdd st.activeStreams streamName }
    if st.isConnected = false then
      if st.connectingPromise = false then
        ({ connectStart st with connectingPromise := true }, [])
      else (st, [])
    else if isNewStream then
      subscribeToStream st streamName
    else (st, [])

/-- Embeds `unsubscribe(params)`; `cb = none` removes every callback for the stream. -/
def unsubscribe (st : AdapterState) (cfg : StreamConfig) (cb : Option Nat) :
    AdapterState × List WireMsg :=
  let streamName := getStreamName cfg
  let subscriptionKey := getSubscriptionKey cfg
  let streamSubscriptions := (mapGet st.subscriptions subscriptionKey).getD []
  match cb with
  | some c =>
    let filteredSubscriptions := streamSubscriptions.filter (fun s => s ≠ c)
    let st := { st with subscriptions := mapSet st.subscriptions subscriptionKey filteredSubscriptions }
    if filteredSubscriptions.length = 0 then
      let st := { st with subscriptions := mapDelete st.subscriptions subscriptionKey,
                          activeStreams := setDelete st.activeStreams streamName }
      if st.isConnected = true ∧ st.ws.isSome then
        unsubscribeFromStream st streamName
      else (st, [])
    else (st, [])
  | none =>
    let st := { st with subscriptions := mapDelete st.subscriptions subscriptionKey,
                        activeStreams := setDelete st.activeStreams streamName }
    if st.isConnected = true ∧ st.ws.isSome then
      unsubscribeFromStream st streamName
    else (st, [])

/-- A sequence of `subscribe` calls for one config, one call per callback,
collecting the wire messages sent. -/
def runSubscribes : AdapterState → StreamConfig → List Nat → AdapterState × List WireMsg
  | st, _, [] => (st, [])
  | st, cfg, c :: cs =>
    let r1 := subscribe st cfg c
    let r2 := runSubscribes r1.1 cfg cs
    (r2.1, r1.2 ++ r2.2)

/-- A sequence of per-callback `unsubscribe` calls for one config. -/
def runUnsubscribes : AdapterState → StreamConfig → List Nat → AdapterState × List WireMsg
  | st, _, [] => (st, [])
  | st, cfg, c :: cs =>
    let r1 := unsubscribe st cfg (some c)
    let r2 := runUnsubscribes r1.1 cfg cs
    (r2.1, r1.2 ++ r2.2)

/-- The adapter operations a session can perform between connection events:
subscribe, unsubscribe, a socket close (any close code; the code only decides
whether a reconnect is also scheduled), a socket open. -/
inductive AdapterOp
  | subOp (cfg : StreamConfig) (cb : Nat)
  | unsubOp (cfg : StreamConfig) (cb : Option Nat)
  | closeOp (code : Nat)
  | openOp

/-- State effect of one operation (wire output not tracked here). -/
def applyOp (st : AdapterState) : AdapterOp → AdapterState
  | .subOp cfg cb => (subscribe st cfg cb).1
  | .unsubOp cfg cb => (unsubscribe st cfg cb).1
  | .closeOp _ => onCloseState st
  | .openOp => (onOpen st).1

/-- Run a trace of operations. -/
def applyOps : AdapterState → List AdapterOp → AdapterState
  | st, [] => st
  | st, op :: ops => applyOps (applyOp st op) ops

/-- Configs used by one operation. -/
def opConfigs : AdapterOp → List StreamConfig
  | .subOp cfg _ => [cfg]
  | .unsubOp cfg _ => [cfg]
  | _ => []

/-- All configs used along a trace. -/
def opsConfigs (ops : List AdapterOp) : List StreamConfig :=
  ops.foldr (fun op acc => opConfigs op ++ acc) []

/-- Identity coherence: among the used configs, two identities share a
registry key iff they share a wire stream name (true of the UI's resolution
tokens; violated e.g. by the interval pair "60" / "1h", which alias the same
stream under different keys). -/
def CoherentConfigs (C : List StreamConfig) : Prop :=
  ∀ c1 ∈ C, ∀ c2 ∈ C,
    (getSubscriptionKey c1 = getSubscriptionKey c2 ↔ getStreamName c1 = getStreamName c2)

/-- Streams named in the SUBSCRIBE frames of a batch. -/
def subscribedStreams (msgs : List WireMsg) : List String :=
  (msgs.filter (fun msg => decide (msg.method = Method.subscribeMethod))).foldr
    (fun msg acc => msg.params ++ acc) []

/-- An unexpected close followed by a successful reconnect: the `onclose`
state effect, a fresh socket from the scheduled `connect()`, and its `onopen`
firing (which resubscribes all active streams). -/
def reconnectCycle (st : AdapterState) : AdapterState × List WireMsg :=
  onOpen (connectStart (onCloseState st))

/-- The registry/active-streams correspondence: every stored callback list is
non-empty and belongs to a used identity, and a stream is active exactly when
some used identity with that stream name has a live subscriber. -/
def RegistryInv (C : List StreamConfig) (st : AdapterState) : Prop :=
  (∀ k l, mapGet st.subscriptions k = some l →
     l ≠ [] ∧ ∃ cfg ∈ C, getSubscriptionKey cfg = k) ∧
  (∀ s, s ∈ st.activeStreams ↔
     ∃ cfg ∈ C, getStreamName cfg = s ∧
       (mapGet st.subscriptions (getSubscriptionKey cfg)).getD [] ≠ [])

/-- One observable event of `handleReconnect`. -/
inductive ReconnectEvent
  | scheduled (attempt : Nat) (delay : Nat)
  | terminal
deriving DecidableEq, Repr

/-- Embeds `handleReconnect`: bumps the counter and schedules a retry after
`reconnectDelay * 2 ^ (attempts - 1)` ms, or reports terminal failure once the
cap is reached. -/
def handleReconnect (attempts : Nat) : Nat × Option (Nat × Nat) :=
  if maxReconnectAttempts ≤ attempts then (attempts, none)
  else
    let attempts := attempts + 1
    (attempts, some (attempts, reconnectDelay * 2 ^ (attempts - 1)))

/-- The event trace of a run of consecutive connection failures: each scheduled
attempt fails and invokes `handleReconnect` again; a terminal report schedules
nothing.  `fuel` bounds the recursion and exceeds the attempt cap in use. -/
def failureRun : Nat → Nat → List ReconnectEvent
  | 0, _ => []
  | fuel + 1, attempts =>
    match handleReconnect attempts with
    | (_, none) => [ReconnectEvent.terminal]
    | (a, some (k, d)) => ReconnectEvent.scheduled k d :: failureRun fuel a

/-- A registered consumer callback: handle plus behaviour on a payload
(`.error` models a thrown exception). -/
structure Callback (α : Type) where
  id : Nat
  run : α → Except String Unit

/-- What a dispatch did for one callback. -/
inductive DispatchEvent (α : Type)
  | delivered (id : Nat) (payload : α)
  | errorLogged (id : Nat) (msg : String)
deriving DecidableEq

/-- Body of the `forEach` in `notifySubscriptions`: the `try`/`catch` turns a
throwing callback into a logged error, so the body itself never throws. -/
def notifyStep {α : Type} (cb : Callback α) (payload : α) :
    Except String (DispatchEvent α) :=
  match cb.run payload with
  | .ok _ => .ok (.delivered cb.id payload)
  | .error e => .ok (.errorLogged cb.id e)

/-- Embeds `notifySubscriptions`: dispatch a payload to every registered callback in
order; an uncaught exception anywhere would abort the whole traversal with
`.error`. -/
def notifySubscriptions {α : Type} (subs : List (Callback α)) (payload : α) :
    Except String (List (DispatchEvent α)) :=
  match subs with
  | [] => .ok []
  | cb :: rest => do
    let ev ← notifyStep cb payload
    let evs ← notifySubscriptions rest payload
    .ok (ev :: evs)

/-- The event a single callback invocation contributes (used to state what
`notifySubscriptions` produces). -/
def dispatchResult {α : Type} (cb : Callback α) (payload : α) : DispatchEvent α :=
  match cb.run payload with
  | .ok _ => .delivered cb.id payload
  | .error m => .errorLogged cb.id m

/-! ## Trade aggregator worker (position/PnL accounting engine)

Embedding of the current revision of `tradeAggregator.ts`.  Prices and
quantities are rationals.  The stored `lastUpdate` fields (written from
`Date.now()` or the tick timestamp, never read by the logic) are kept for
the price cache, where the tick timestamp is data, and dropped from
positions, where they are wall clock.  Division is only evaluated under a
positivity guard, exactly as in the source. -/

/-- The order side union type. -/
inductive Side
  | buy
  | sell
deriving DecidableEq, Repr

/-- The order status union type. -/
inductive OrderStatus
  | pending
  | rejected
  | filled
  | cancelled
deriving DecidableEq, Repr

/-- An order as consumed by the worker (fields the worker never reads —
`type`, `postOnly`, `filledQuantity`, `averagePrice` — are omitted). -/
structure Order where
  id : String
  symbol : String
  exchange : String
  side : Side
  price : ℚ
  quantity : ℚ
  status : OrderStatus
  timestamp : Int
deriving DecidableEq, Repr

/-- An entry of the `symbolPrices` map (`price = 0` means no tick seen yet). -/
structure SymbolPriceData where
  price : ℚ
  lastUpdate : Int
deriving DecidableEq, Repr

/-- A ledger position (v2 shape; `lastUpdate` wall clock dropped). -/
structure Position where
  symbol : String
  exchange : String
  quantity : ℚ
  averagePrice : ℚ
  unrealizedPnL : ℚ
deriving DecidableEq, Repr

/-- An `AggregatedPrice` snapshot entry. -/
structure AggregatedPrice where
  symbol : String
  price : ℚ
  lastUpdate : Int
deriving DecidableEq, Repr

/-- The mutable walk state of `calculatePositionForSymbol`. -/
structure PositionState where
  positionQty : ℚ
  positionCost : ℚ
  activeOrders : List Order
deriving DecidableEq, Repr

/-- A trade print forwarded from the adapter (fields the worker reads). -/
structure TradeData where
  symbol : String
  price : ℚ
  quantity : ℚ
  timestamp : Int
deriving DecidableEq, Repr

/-- Worker state: price cache, position ledger, push-timer flag. -/
structure WorkerState where
  symbolPrices : List (String × SymbolPriceData)
  positions : List (String × Position)
  timerRunning : Bool
deriving DecidableEq, Repr

/-- The worker before any message. -/
def initWorker : WorkerState :=
  { symbolPrices := [], positions := [], timerRunning := false }

/-- Inbound messages of the accounting boundary. -/
inductive InMsg
  | tradeData (td : TradeData)
  | subscribeMsg (symbol : String)
  | unsubscribeMsg (symbol : String)
  | ordersUpdate (orders : List Order)
deriving DecidableEq, Repr

/-- Outbound messages of the accounting boundary. -/
inductive OutMsg
  | pnlUpdate (positions : List Position) (totalUnrealizedPnL : ℚ)
  | positionClosed (exchange symbol : String)
  | aggregatedPrices (prices : List AggregatedPrice)
deriving DecidableEq, Repr

/-- Embeds `getOrCreateSymbolPrice`. -/
def getOrCreateSymbolPrice (m : List (String × SymbolPriceData)) (symbol : String) :
    List (String × SymbolPriceData) :=
  match mapGet m symbol with
  | some _ => m
  | none => mapSet m symbol { price := 0, lastUpdate := 0 }

/-- Embeds `getCurrentPrice`: last price for the lowercased symbol, `0` if absent. -/
def getCurrentPrice (m : List (String × SymbolPriceData)) (symbol : String) : ℚ :=
  ((mapGet m (strToLower symbol)).map (fun d => d.price)).getD 0

/-- Embeds `createPositionKey`. -/
def createPositionKey (exchange symbol : String) : String :=
  exchange ++ ":" ++ symbol

/-- Recovers `[exchange, symbol]` from `key.split(':')`. -/
def splitPositionKey (key : String) : String × String :=
  let parts := splitChar ':' key
  (parts.getD 0 "", parts.getD 1 "")

/-- Embeds `handleTradeData`: update the cache entry for the lowercased symbol
only if the symbol is subscribed (present in the map). -/
def handleTradeData (st : WorkerState) (td : TradeData) : WorkerState :=
  let normalizedSymbol := strToLower td.symbol
  match mapGet st.symbolPrices normalizedSymbol with
  | some _ =>
    let entry : SymbolPriceData := { price := td.price, lastUpdate := td.timestamp }
    { st with symbolPrices := mapSet st.symbolPrices normalizedSymbol entry }
  | none => st

/-- Per-entry effect of the `calculatePnL` loop: recompute `unrealizedPnL`
mark-to-market when a positive current price exists. -/
def calcEntry (prices : List (String × SymbolPriceData)) (p : Position) : Position :=
  let currentPrice := getCurrentPrice prices p.symbol
  if 0 < currentPrice then
    { p with unrealizedPnL := (currentPrice - p.averagePrice) * p.quantity }
  else p

/-- Embeds `calculatePnL`: walks the ledger, rewriting each entry via
`calcEntry` and accumulating the total over entries with a known price;
returns the mutated ledger, the pushed snapshot list and the total. -/
def calculatePnL (prices : List (String × SymbolPriceData)) :
    List (String × Position) → List (String × Position) × (List Position × ℚ)
  | [] => ([], ([], 0))
  | (k, p) :: rest =>
    let p' := calcEntry prices p
    let contrib := if 0 < getCurrentPrice prices p.symbol
      then (getCurrentPrice prices p.symbol - p.averagePrice) * p.quantity else 0
    let r := calculatePnL prices rest
    ((k, p') :: r.1, (p' :: r.2.1, contrib + r.2.2))

/-- Embeds `startPushTimer`: on the timer's first start, push the initial
`PNL_UPDATE` immediately (this also rewrites the stored ledger entries). -/
def startPushTimer (st : WorkerState) : WorkerState × List OutMsg :=
  if st.timerRunning then (st, [])
  else
    let r := calculatePnL st.symbolPrices st.positions
    ({ st with positions := r.1, timerRunning := true },
     [OutMsg.pnlUpdate r.2.1 r.2.2])

/-- Embeds `stopPushTimer`. -/
def stopPushTimer (st : WorkerState) : WorkerState :=
  { st with timerRunning := false }

/-- Embeds `subscribeSymbol` (v2): ensure a cache entry exists, start the timer. -/
def subscribeSymbol (st : WorkerState) (symbol : String) : WorkerState × List OutMsg :=
  let st := { st with symbolPrices := getOrCreateSymbolPrice st.symbolPrices symbol }
  if st.symbolPrices.length > 0 then startPushTimer st else (st, [])

/-- Embeds `unsubscribeSymbol` (v2): delete the cache entry, stop the timer
when no symbols remain. -/
def unsubscribeSymbol (st : WorkerState) (symbol : String) : WorkerState :=
  let st := { st with symbolPrices := mapDelete st.symbolPrices symbol }
  if st.symbolPrices.length = 0 then stopPushTimer st else st

/-- Embeds `collectAggregatedPrices`. -/
def collectAggregatedPrices (m : List (String × SymbolPriceData)) : List AggregatedPrice :=
  m.foldr
    (fun e acc =>
      if 0 < e.2.price then
        { symbol := e.1, price := e.2.price, lastUpdate := e.2.lastUpdate } :: acc
      else acc) []

/-- One periodic tick of the push timer. -/
def timerTick (st : WorkerState) : WorkerState × List OutMsg :=
  let prices := collectAggregatedPrices st.symbolPrices
  let priceMsgs := if prices.length > 0 then [OutMsg.aggregatedPrices prices] else []
  if st.positions.length > 0 then
    let r := calculatePnL st.symbolPrices st.positions
    ({ st with positions := r.1 }, priceMsgs ++ [OutMsg.pnlUpdate r.2.1 r.2.2])
  else (st, priceMsgs)

/-- Stable-by-timestamp insertion used to model the chronological sort. -/
def insertByTs (o : Order) : List Order → List Order
  | [] => [o]
  | x :: xs => if o.timestamp ≤ x.timestamp then o :: x :: xs else x :: insertByTs o xs

/-- Stable sort by ascending timestamp (`orders.sort((a, b) => a.timestamp - b.timestamp)`). -/
def sortByTs : List Order → List Order
  | [] => []
  | x :: xs => insertByTs x (sortByTs xs)

/-- One push of the `forEach` in `groupOrdersBySymbol`. -/
def groupStep (m : List (String × List Order)) (o : Order) : List (String × List Order) :=
  let key := createPositionKey o.exchange o.symbol
  match mapGet m key with
  | some existing => mapSet m key (existing ++ [o])
  | none => mapSet m key [o]

/-- Embeds `groupOrdersBySymbol`: group the `FILLED` orders by position key,
preserving first-occurrence key order and in-group order. -/
def groupOrdersBySymbol (orders : List Order) : List (String × List Order) :=
  (orders.filter (fun o => decide (o.status = OrderStatus.filled))).foldl groupStep []

/-- Embeds `processBuyOrder`. -/
def processBuyOrder (state : PositionState) (order : Order) : PositionState :=
  { state with
      positionQty := state.positionQty + order.quantity
      positionCost := state.positionCost + order.quantity * order.price
      activeOrders := state.activeOrders ++ [order] }

/-- Embeds `processSellOrder` (`positionKey` is only used in log lines). -/
def processSellOrder (state : PositionState) (order : Order) (_positionKey : String) :
    PositionState :=
  if 0 < state.positionQty then
    let offsetQty := min order.quantity state.positionQty
    let avgCost := state.positionCost / state.positionQty
    let state :=
      { state with
          positionQty := state.positionQty - offsetQty
          positionCost := state.positionCost - avgCost * offsetQty }
    if state.positionQty = 0 then { state with activeOrders := [] } else state
  else state

/-- The chronological walk inside `calculatePositionForSymbol`. -/
def walkOrders (positionKey : String) : PositionState → List Order → PositionState
  | state, [] => state
  | state, o :: rest =>
    match o.side with
    | .buy => walkOrders positionKey (processBuyOrder state o) rest
    | .sell => walkOrders positionKey (processSellOrder state o positionKey) rest

/-- Embeds `calculatePositionForSymbol`. -/
def calculatePositionForSymbol (orders : List Order) (positionKey : String) : PositionState :=
  walkOrders positionKey { positionQty := 0, positionCost := 0, activeOrders := [] }
    (sortByTs orders)

/-- Embeds `updatePosition`: upsert the entry when the recomputed quantity is
non-zero, otherwise delete it and emit `POSITION_CLOSED`. -/
def updatePosition (positionKey exchange symbol : String) (state : PositionState)
    (positions : List (String × Position)) :
    List (String × Position) × List OutMsg :=
  if state.positionQty ≠ 0 then
    let averagePrice := state.positionCost / |state.positionQty|
    (mapSet positions positionKey
      { symbol := symbol, exchange := exchange, quantity := state.positionQty,
        averagePrice := averagePrice, unrealizedPnL := 0 }, [])
  else
    (mapDelete positions positionKey, [OutMsg.positionClosed exchange symbol])

/-- One group step of the `forEach` in `updatePositions`. -/
def updatePositionStep (positions : List (String × Position)) (key : String)
    (orders : List Order) : List (String × Position) × List OutMsg :=
  let (exchange, symbol) := splitPositionKey key
  let state := calculatePositionForSymbol orders key
  updatePosition key exchange symbol state positions

/-- The fold of `updatePositions` over the grouped orders. -/
def updatePositionsRun : List (String × List Order) → List (String × Position) →
    List (String × Position) × List OutMsg
  | [], positions => (positions, [])
  | (key, orders) :: rest, positions =>
    let (positions1, out1) := updatePositionStep positions key orders
    let (positions2, out2) := updatePositionsRun rest positions1
    (positions2, out1 ++ out2)

/-- Embeds `updatePositions` (v2 — no pruning of keys absent from the update). -/
def updatePositions (orders : List Order) (positions : List (String × Position)) :
    List (String × Position) × List OutMsg :=
  updatePositionsRun (groupOrdersBySymbol orders) positions

/-- Embeds `handleOrdersUpdate`: recompute the ledger then push a `PNL_UPDATE`. -/
def handleOrdersUpdate (st : WorkerState) (orders : List Order) :
    WorkerState × List OutMsg :=
  let r := updatePositions orders st.positions
  let c := calculatePnL st.symbolPrices r.1
  ({ st with positions := c.1 },
   r.2 ++ [OutMsg.pnlUpdate c.2.1 c.2.2])

/-- Embeds the worker's `self.onmessage` dispatch. -/
def workerStep (st : WorkerState) : InMsg → WorkerState × List OutMsg
  | .tradeData td => (handleTradeData st td, [])
  | .subscribeMsg symbol => subscribeSymbol st symbol
  | .unsubscribeMsg symbol => (unsubscribeSymbol st symbol, [])
  | .ordersUpdate orders => handleOrdersUpdate st orders

/-- Processing of a message sequence, collecting all outbound messages. -/
def workerRun : WorkerState → List InMsg → WorkerState × List OutMsg
  | st, [] => (st, [])
  | st, msg :: rest =>
    let (st1, out1) := workerStep st msg
    let (st2, out2) := workerRun st1 rest
    (st2, out1 ++ out2)

/-- The ledger write of `updatePosition` for one group, as a value: `some` of
the upserted entry when the recomputed quantity is non-zero, `none` for the
deletion of a closed position. -/
def groupEntry (key : String) (orders : List Order) : Option Position :=
  let exchange := (splitPositionKey key).1
  let symbol := (splitPositionKey key).2
  let state := calculatePositionForSymbol orders key
  if state.positionQty ≠ 0 then
    some { symbol := symbol, exchange := exchange, quantity := state.positionQty,
           averagePrice := state.positionCost / |state.positionQty|, unrealizedPnL := 0 }
  else none

/-- Apply an optional entry at a key: upsert or delete. -/
def applyEntry (m : List (String × Position)) (key : String) :
    Option Position → List (String × Position)
  | some p => mapSet m key p
  | none => mapDelete m key

/-- Fold of per-group ledger writes over the grouped orders, with an entry
transform `f` (the identity restates `updatePositionsRun`; `Option.map` of the
mark-to-market rewrite appears when commuting `calculatePnL` past it). -/
def applyGroupsWith (f : Option Position → Option Position) :
    List (String × List Order) → List (String × Position) → List (String × Position)
  | [], m => m
  | (key, orders) :: gs, m =>
    applyGroupsWith f gs (applyEntry m key (f (groupEntry key orders)))

/-- The ledger positivity invariant: every stored position has strictly
positive quantity (no shorts, no zero entries). -/
def PosInv (m : List (String × Position)) : Prop :=
  ∀ g ∈ m, 0 < g.2.quantity

/-- An inbound message is quantity-wellformed when any orders it carries have
non-negative quantities. -/
def MsgOrdersNonneg : InMsg → Prop
  | InMsg.ordersUpdate orders => ∀ o ∈ orders, 0 ≤ o.quantity
  | _ => True

/-- Count of `POSITION_CLOSED` messages in an outbound batch. -/
def countClosed (msgs : List OutMsg) : Nat :=
  msgs.countP (fun msg =>
    match msg with
    | OutMsg.positionClosed _ _ => true
    | _ => false)

/-! ### First revision of the worker (v1)

The repository's earlier revision of `tradeAggregator.ts` tracks realized
PnL explicitly in `updatePositions`; the current revision drops the
realized-PnL accumulator.  The v1 walk is embedded for the realized-gain
part of the PnL example. -/

/-- A v1 ledger position, carrying accumulated `realizedPnL`. -/
structure PositionV1 where
  symbol : String
  exchange : String
  quantity : ℚ
  averagePrice : ℚ
  unrealizedPnL : ℚ
  realizedPnL : ℚ
deriving DecidableEq, Repr

/-- The chronological walk of the v1 `updatePositions`: accumulates
`(totalQuantity, totalValue, realizedPnL)`. -/
def walkOrdersV1 : (ℚ × ℚ × ℚ) → List Order → (ℚ × ℚ × ℚ)
  | acc, [] => acc
  | (totalQuantity, totalValue, realizedPnL), o :: rest =>
    match o.side with
    | .buy =>
      walkOrdersV1
        (totalQuantity + o.quantity, totalValue + o.quantity * o.price, realizedPnL) rest
    | .sell =>
      if 0 < totalQuantity then
        let sellQuantity := min o.quantity totalQuantity
        let avgCost := totalValue / totalQuantity
        let realizedGain := (o.price - avgCost) * sellQuantity
        walkOrdersV1
          (totalQuantity - sellQuantity, totalValue - sellQuantity * avgCost,
           realizedPnL + realizedGain) rest
      else walkOrdersV1 (totalQuantity, totalValue, realizedPnL) rest

/-- One group of the v1 `updatePositions`: upsert when open, delete when flat. -/
def updatePositionsV1Step (positions : List (String × PositionV1)) (key : String)
    (orders : List Order) : List (String × PositionV1) :=
  let (exchange, symbol) := splitPositionKey key
  let (totalQuantity, totalValue, realizedPnL) := walkOrdersV1 (0, 0, 0) (sortByTs orders)
  if 0 < totalQuantity then
    mapSet positions key
      { symbol := symbol, exchange := exchange, quantity := totalQuantity,
        averagePrice := totalValue / totalQuantity, unrealizedPnL := 0,
        realizedPnL := realizedPnL }
  else
    mapDelete positions key

/-- Embeds the v1 `updatePositions`, including its pruning of ledger keys that
no longer have any filled order. -/
def updatePositionsV1 (orders : List Order) (positions : List (String × PositionV1)) :
    List (String × PositionV1) :=
  let grouped := groupOrdersBySymbol orders
  let updated := grouped.foldl (fun ps g => updatePositionsV1Step ps g.1 g.2) positions
  updated.filter (fun e => decide (mapGet grouped e.1 ≠ none))

/-! ## Association-list map and set lemmas -/

theorem mapGet_nil {α : Type} (key : String) : mapGet ([] : List (String × α)) key = none := rfl

theorem mapGet_mapSet_self {α : Type} (m : List (String × α)) (k : String) (v : α) :
    mapGet (mapSet m k v) k = some v := by
  induction m with
  | nil => simp [mapGet, mapSet]
  | cons p rest ih =>
    obtain ⟨k', w⟩ := p
    by_cases h : k' = k
    · subst h; simp [mapGet, mapSet]
    · simp [mapGet, mapSet, h, ih]

theorem mapGet_mapSet_ne {α : Type} (m : List (String × α)) (k key : String) (v : α)
    (h : key ≠ k) : mapGet (mapSet m k v) key = mapGet m key := by
  induction m with
  | nil => simp [mapGet, mapSet, Ne.symm h]
  | cons p rest ih =>
    obtain ⟨k', w⟩ := p
    by_cases hk : k' = k
    · subst hk
      simp [mapGet, mapSet, Ne.symm h]
    · by_cases hky : k' = key
      · subst hky; simp [mapGet, mapSet, hk]
      · simp [mapGet, mapSet, hk, hky, ih]

theorem mapGet_mapDelete_self {α : Type} (m : List (String × α)) (k : String) :
    mapGet (mapDelete m k) k = none := by
  induction m with
  | nil => simp [mapGet, mapDelete]
  | cons p rest ih =>
    obtain ⟨k', w⟩ := p
    by_cases h : k' = k
    · simp [mapDelete, h, ih]
    · simp [mapDelete, mapGet, h, ih]

theorem mapGet_mapDelete_ne {α : Type} (m : List (String × α)) (k key : String)
    (h : key ≠ k) : mapGet (mapDelete m k) key = mapGet m key := by
  induction m with
  | nil => simp [mapDelete]
  | cons p rest ih =>
    obtain ⟨k', w⟩ := p
    by_cases hk : k' = k
    · subst hk
      simp [mapDelete, mapGet, Ne.symm h, ih]
    · by_cases hky : k' = key
      · subst hky; simp [mapDelete, mapGet, hk]
      · simp [mapDelete, mapGet, hk, hky, ih]

theorem mapGet_mapSet_cases {α : Type} (m : List (String × α)) (k key : String) (v w : α)
    (h : mapGet (mapSet m k v) key = some w) : w = v ∨ mapGet m key = some w := by
  by_cases hk : key = k
  · subst hk; rw [mapGet_mapSet_self] at h; exact Or.inl (Option.some.inj h).symm
  · rw [mapGet_mapSet_ne _ _ _ _ hk] at h; exact Or.inr h

theorem mapGet_mapDelete_cases {α : Type} (m : List (String × α)) (k key : String) (w : α)
    (h : mapGet (mapDelete m k) key = some w) : mapGet m key = some w := by
  by_cases hk : key = k
  · subst hk; rw [mapGet_mapDelete_self] at h; exact Option.noConfusion h
  · rwa [mapGet_mapDelete_ne _ _ _ hk] at h

theorem mapSet_of_mapGet_eq {α : Type} (m : List (String × α)) (k : String) (v : α)
    (h : mapGet m k = some v) : mapSet m k v = m := by
  induction m with
  | nil => simp [mapGet] at h
  | cons p rest ih =>
    obtain ⟨k', w⟩ := p
    by_cases hk : k' = k
    · subst hk
      simp [mapGet] at h
      simp [mapSet, h]
    · simp [mapGet, hk] at h
      simp [mapSet, hk, ih h]

theorem mapDelete_of_mapGet_eq_none {α : Type} (m : List (String × α)) (k : String)
    (h : mapGet m k = none) : mapDelete m k = m := by
  induction m with
  | nil => simp [mapDelete]
  | cons p rest ih =>
    obtain ⟨k', w⟩ := p
    by_cases hk : k' = k
    · subst hk; simp [mapGet] at h
    · simp [mapGet, hk] at h
      simp [mapDelete, hk, ih h]

theorem mem_setAdd {s : List String} {x y : String} :
    y ∈ setAdd s x ↔ y ∈ s ∨ y = x := by
  unfold setAdd
  by_cases h : x ∈ s
  · rw [if_pos h]
    constructor
    · exact Or.inl
    · rintro (hy | rfl)
      · exact hy
      · exact h
  · rw [if_neg h]
    simp

theorem setDelete_cons_self (rest : List String) (x : String) :
    setDelete (x :: rest) x = setDelete rest x := by simp [setDelete]

theorem setDelete_cons_ne {z x : String} (rest : List String) (h : z ≠ x) :
    setDelete (z :: rest) x = z :: setDelete rest x := by simp [setDelete, h]

theorem mem_setDelete {s : List String} {x y : String} :
    y ∈ setDelete s x ↔ y ∈ s ∧ y ≠ x := by
  induction s with
  | nil => simp [setDelete]
  | cons z rest ih =>
    by_cases h : z = x
    · subst h
      rw [setDelete_cons_self, ih]
      constructor
      · rintro ⟨hy, hne⟩; exact ⟨List.mem_cons_of_mem _ hy, hne⟩
      · rintro ⟨hy, hne⟩
        rcases List.mem_cons.mp hy with rfl | hy'
        · exact absurd rfl hne
        · exact ⟨hy', hne⟩
    · rw [setDelete_cons_ne rest h]
      constructor
      · intro hy
        rcases List.mem_cons.mp hy with rfl | hy'
        · exact ⟨List.mem_cons_self _ _, h⟩
        · obtain ⟨hy2, hne⟩ := ih.mp hy'
          exact ⟨List.mem_cons_of_mem _ hy2, hne⟩
      · rintro ⟨hy, hne⟩
        rcases List.mem_cons.mp hy with rfl | hy'
        · exact List.mem_cons_self _ _
        · exact List.mem_cons_of_mem _ (ih.mpr ⟨hy', hne⟩)

/-! ## General lemmas about the embedded operations -/

theorem strToLower_eq_toLower (s : String) : strToLower s = s.toLower :=
  (String.map_eq Char.toLower s).symm

theorem startPushTimer_symbolPrices (st : WorkerState) :
    (startPushTimer st).1.symbolPrices = st.symbolPrices := by
  unfold startPushTimer
  by_cases h : st.timerRunning
  · simp [h]
  · simp [h]

theorem subscribeSymbol_symbolPrices (st : WorkerState) (s : String) :
    (subscribeSymbol st s).1.symbolPrices = getOrCreateSymbolPrice st.symbolPrices s := by
  unfold subscribeSymbol
  by_cases h : (getOrCreateSymbolPrice st.symbolPrices s).length > 0
  · simp only [h, if_pos, startPushTimer_symbolPrices]
  · simp only [h, if_neg, ite_false]

theorem unsubscribeSymbol_symbolPrices (st : WorkerState) (s : String) :
    (unsubscribeSymbol st s).symbolPrices = mapDelete st.symbolPrices s := by
  unfold unsubscribeSymbol
  by_cases h : (mapDelete st.symbolPrices s).length = 0
  · simp [h, stopPushTimer]
  · simp [h]

theorem setAdd_of_mem {s : List String} {x : String} (h : x ∈ s) : setAdd s x = s := by
  simp [setAdd, h]

theorem mapSet_mapSet {α : Type} (m : List (String × α)) (k : String) (v w : α) :
    mapSet (mapSet m k v) k w = mapSet m k w := by
  induction m with
  | nil => simp [mapSet]
  | cons p rest ih =>
    obtain ⟨k', u⟩ := p
    by_cases h : k' = k
    · subst h; simp [mapSet]
    · simp [mapSet, h, ih]

theorem subscribe_fresh (st : AdapterState) (cfg : StreamConfig) (c : Nat)
    (hconn : st.isConnected = true) (hws : st.ws = some true)
    (hkey : mapGet st.subscriptions (getSubscriptionKey cfg) = none)
    (hstream : getStreamName cfg ∉ st.activeStreams) :
    subscribe st cfg c =
      ({ st with subscriptions := mapSet st.subscriptions (getSubscriptionKey cfg) [c],
                 activeStreams := setAdd st.activeStreams (getStreamName cfg) },
       [{ method := .subscribeMethod, params := [getStreamName cfg] }]) := by
  simp [subscribe, hkey, hconn, hstream, subscribeToStream, sendStreamMessage, hws]

theorem subscribe_existing (st : AdapterState) (cfg : StreamConfig) (c : Nat) (l : List Nat)
    (hconn : st.isConnected = true)
    (hkey : mapGet st.subscriptions (getSubscriptionKey cfg) = some l)
    (hc : c ∉ l)
    (hstream : getStreamName cfg ∈ st.activeStreams) :
    subscribe st cfg c =
      ({ st with subscriptions :=
           mapSet st.subscriptions (getSubscriptionKey cfg) (l ++ [c]) }, []) := by
  simp [subscribe, hkey, hc, hconn, hstream, setAdd_of_mem hstream]

theorem runSubscribes_existing (cfg : StreamConfig) :
    ∀ (cs : List Nat) (st : AdapterState) (l : List Nat),
    st.isConnected = true →
    mapGet st.subscriptions (getSubscriptionKey cfg) = some l →
    getStreamName cfg ∈ st.activeStreams →
    (∀ c ∈ cs, c ∉ l) → cs.Nodup →
    runSubscribes st cfg cs =
      ({ st with subscriptions :=
           mapSet st.subscriptions (getSubscriptionKey cfg) (l ++ cs) }, []) := by
  intro cs
  induction cs with
  | nil =>
    intro st l _ h2 _ _ _
    simp [runSubscribes, mapSet_of_mapGet_eq _ _ _ h2]
  | cons c cs ih =>
    intro st l h1 h2 h3 h4 h5
    have hstep := subscribe_existing st cfg c l h1 h2 (h4 c (by simp)) h3
    have hrec := ih
      { st with subscriptions := mapSet st.subscriptions (getSubscriptionKey cfg) (l ++ [c]) }
      (l ++ [c]) (by simpa using h1) (by simp [mapGet_mapSet_self]) (by simpa using h3)
      (by
        intro x hx
        simp only [List.mem_append, List.mem_singleton]
        rintro (hxl | rfl)
        · exact h4 x (by simp [hx]) hxl
        · exact (List.nodup_cons.mp h5).1 hx)
      (List.nodup_cons.mp h5).2
    simp only [runSubscribes, hstep, hrec, mapSet_mapSet, List.append_assoc,
      List.singleton_append, List.append_nil, List.nil_append]

theorem unsubscribe_keep (st : AdapterState) (cfg : StreamConfig) (d e : Nat) (l : List Nat)
    (hkey : mapGet st.subscriptions (getSubscriptionKey cfg) = some l)
    (he : e ∈ l) (hne : e ≠ d) :
    unsubscribe st cfg (some d) =
      ({ st with subscriptions := (mapSet st.subscriptions (getSubscriptionKey cfg)
           (l.filter (fun s => s ≠ d))) }, []) := by
  have hfil : e ∈ l.filter (fun s => s ≠ d) := List.mem_filter.mpr ⟨he, by simp [hne]⟩
  have hlen : ¬ (l.filter (fun s => s ≠ d)).length = 0 := by
    intro h0
    rw [List.length_eq_zero] at h0
    rw [h0] at hfil
    exact absurd hfil (List.not_mem_nil e)
  simp only [unsubscribe]
  rw [hkey]
  simp only [Option.getD_some]
  rw [if_neg hlen]

theorem runUnsubscribes_keep (cfg : StreamConfig) (e : Nat) :
    ∀ (ds : List Nat) (st : AdapterState) (l : List Nat),
    mapGet st.subscriptions (getSubscriptionKey cfg) = some l →
    e ∈ l → e ∉ ds →
    runUnsubscribes st cfg ds =
      ({ st with subscriptions := (mapSet st.subscriptions (getSubscriptionKey cfg)
           (ds.foldl (fun acc d => acc.filter (fun s => s ≠ d)) l)) }, []) := by
  intro ds
  induction ds with
  | nil =>
    intro st l h1 _ _
    simp [runUnsubscribes, mapSet_of_mapGet_eq _ _ _ h1]
  | cons d ds ih =>
    intro st l h1 h2 h3
    have hne : e ≠ d := by
      intro hq
      exact h3 (by simp [hq])
    have hstep := unsubscribe_keep st cfg d e l h1 h2 hne
    have hrec := ih
      { st with subscriptions := (mapSet st.subscriptions (getSubscriptionKey cfg)
          (l.filter (fun s => s ≠ d))) }
      (l.filter (fun s => s ≠ d)) (by simp [mapGet_mapSet_self])
      (List.mem_filter.mpr ⟨h2, by simp [hne]⟩)
      (by
        intro hq
        exact h3 (by simp [hq]))
    simp only [runUnsubscribes, hstep, hrec, mapSet_mapSet, List.foldl_cons,
      List.append_nil, List.nil_append]

theorem foldl_filter_eq (ds : List Nat) : ∀ l : List Nat,
    ds.foldl (fun acc d => acc.filter (fun s => s ≠ d)) l =
      l.filter (fun s => s ∉ ds) := by
  induction ds with
  | nil =>
    intro l
    simp
  | cons d ds ih =>
    intro l
    rw [List.foldl_cons, ih, List.filter_filter]
    apply List.filter_congr
    intro a _
    simp only [List.mem_cons, not_or, decide_not, Bool.decide_and, Bool.not_and, decide_eq_true_eq]
    by_cases h1 : a = d <;> by_cases h2 : a ∈ ds <;> simp [h1, h2]

theorem filter_not_mem_of_perm (cs ds : List Nat) (e : Nat)
    (hperm : cs.Perm (ds ++ [e])) (he : e ∉ ds) :
    cs.filter (fun s => s ∉ ds) = [e] := by
  have h1 : (cs.filter (fun s => s ∉ ds)).Perm ((ds ++ [e]).filter (fun s => s ∉ ds)) :=
    hperm.filter _
  have hd : ds.filter (fun s => s ∉ ds) = [] := by
    rw [List.filter_eq_nil_iff]
    intro a ha
    simp [ha]
  have h2 : (ds ++ [e]).filter (fun s => s ∉ ds) = [e] := by
    rw [List.filter_append, hd]
    simp [he]
  rw [h2] at h1
  exact List.perm_singleton.mp h1

theorem handleReconnect_of_max_le (a : Nat) (h : maxReconnectAttempts ≤ a) :
    handleReconnect a = (a, none) := by
  simp [handleReconnect, h]

theorem handleReconnect_of_lt (a : Nat) (h : a < maxReconnectAttempts) :
    handleReconnect a = (a + 1, some (a + 1, reconnectDelay * 2 ^ a)) := by
  simp [handleReconnect, Nat.not_le.mpr h]

theorem failureRun_spec (fuel a : Nat) (h : maxReconnectAttempts - a < fuel) :
    failureRun fuel a =
      (List.range (maxReconnectAttempts - a)).map
        (fun i => ReconnectEvent.scheduled (a + i + 1) (reconnectDelay * 2 ^ (a + i))) ++
      [ReconnectEvent.terminal] := by
  induction fuel generalizing a with
  | zero => omega
  | succ n ih =>
    by_cases hmax : maxReconnectAttempts ≤ a
    · rw [Nat.sub_eq_zero_of_le hmax]
      simp [failureRun, handleReconnect_of_max_le a hmax]
    · push_neg at hmax
      have hrec : failureRun (n + 1) a =
          ReconnectEvent.scheduled (a + 1) (reconnectDelay * 2 ^ a) :: failureRun n (a + 1) := by
        simp [failureRun, handleReconnect_of_lt a hmax]
      have hr : maxReconnectAttempts - a = (maxReconnectAttempts - (a + 1)) + 1 := by omega
      rw [hrec, ih (a + 1) (by omega), hr, List.range_succ_eq_map]
      simp only [List.map_cons, List.map_map, List.cons_append, Nat.add_zero]
      congr 2
      apply List.map_congr_left
      intro i _
      have h1 : a + 1 + i = a + Nat.succ i := by omega
      simp only [Function.comp_apply, h1]

theorem notifyStep_eq {α : Type} (cb : Callback α) (payload : α) :
    notifyStep cb payload = .ok (dispatchResult cb payload) := by
  cases h : cb.run payload <;> simp [notifyStep, dispatchResult, h]

theorem notifySubscriptions_eq {α : Type} (subs : List (Callback α)) (payload : α) :
    notifySubscriptions subs payload =
      .ok (subs.map (fun c => dispatchResult c payload)) := by
  induction subs with
  | nil => rfl
  | cons cb rest ih =>
    unfold notifySubscriptions
    rw [notifyStep_eq, ih]
    rfl

/-! ## Lemmas for the position-recomputation idempotence (C3, C9) -/

theorem mapGet_eq_none_iff {α : Type} (m : List (String × α)) (k : String) :
    mapGet m k = none ↔ k ∉ m.map Prod.fst := by
  induction m with
  | nil => simp [mapGet]
  | cons p rest ih =>
    obtain ⟨k', v⟩ := p
    by_cases h : k' = k
    · subst h; simp [mapGet]
    · simp [mapGet, h, ih, Ne.symm h]

theorem map_fst_mapSet {α : Type} (m : List (String × α)) (k : String) (v : α) :
    (mapSet m k v).map Prod.fst =
      if k ∈ m.map Prod.fst then m.map Prod.fst else m.map Prod.fst ++ [k] := by
  induction m with
  | nil => simp [mapSet]
  | cons p rest ih =>
    obtain ⟨k', w⟩ := p
    by_cases h : k' = k
    · subst h; simp [mapSet]
    · by_cases hm : k ∈ rest.map Prod.fst
      · simp [mapSet, h, ih, hm, Ne.symm h]
      · simp [mapSet, h, ih, hm, Ne.symm h]

theorem foldl_groupStep_keys_nodup :
    ∀ (os : List Order) (m : List (String × List Order)),
    (m.map Prod.fst).Nodup → ((os.foldl groupStep m).map Prod.fst).Nodup := by
  intro os
  induction os with
  | nil => intro m h; simpa using h
  | cons o os ih =>
    intro m h
    rw [List.foldl_cons]
    apply ih
    cases hg : mapGet m (createPositionKey o.exchange o.symbol) with
    | some ex =>
      have hmem : createPositionKey o.exchange o.symbol ∈ m.map Prod.fst := by
        by_contra hnot
        rw [← mapGet_eq_none_iff] at hnot
        simp [hg] at hnot
      simp only [groupStep, hg]
      simp [map_fst_mapSet, hmem, h]
    | none =>
      have hnot : createPositionKey o.exchange o.symbol ∉ m.map Prod.fst :=
        (mapGet_eq_none_iff _ _).mp hg
      simp only [groupStep, hg]
      rw [map_fst_mapSet]
      simp [hnot, List.nodup_append, h]

theorem groupOrdersBySymbol_keys_nodup (orders : List Order) :
    ((groupOrdersBySymbol orders).map Prod.fst).Nodup := by
  unfold groupOrdersBySymbol
  exact foldl_groupStep_keys_nodup _ [] (by simp)

theorem updatePositionStep_eq (m : List (String × Position)) (key : String)
    (orders : List Order) :
    updatePositionStep m key orders =
      (applyEntry m key (groupEntry key orders),
       if (calculatePositionForSymbol orders key).positionQty ≠ 0 then []
       else [OutMsg.positionClosed (splitPositionKey key).1 (splitPositionKey key).2]) := by
  unfold updatePositionStep updatePosition groupEntry applyEntry
  by_cases h : (calculatePositionForSymbol orders key).positionQty ≠ 0
  · simp [h]
  · simp [h]

theorem updatePositionsRun_positions :
    ∀ (gs : List (String × List Order)) (m : List (String × Position)),
    (updatePositionsRun gs m).1 = applyGroupsWith id gs m := by
  intro gs
  induction gs with
  | nil => intro m; rfl
  | cons g gs ih =>
    intro m
    obtain ⟨key, orders⟩ := g
    simp [updatePositionsRun, updatePositionStep_eq, applyGroupsWith, ih]

theorem updatePositionsRun_msgs_indep :
    ∀ (gs : List (String × List Order)) (m m' : List (String × Position)),
    (updatePositionsRun gs m).2 = (updatePositionsRun gs m').2 := by
  intro gs
  induction gs with
  | nil => intro m m'; rfl
  | cons g gs ih =>
    intro m m'
    obtain ⟨key, orders⟩ := g
    simp only [updatePositionsRun, updatePositionStep_eq]
    rw [ih (applyEntry m key (groupEntry key orders))
        (applyEntry m' key (groupEntry key orders))]

theorem calcEntry_symbol (prices : List (String × SymbolPriceData)) (p : Position) :
    (calcEntry prices p).symbol = p.symbol := by
  unfold calcEntry
  by_cases h : 0 < getCurrentPrice prices p.symbol <;> simp [h]

theorem calcEntry_averagePrice (prices : List (String × SymbolPriceData)) (p : Position) :
    (calcEntry prices p).averagePrice = p.averagePrice := by
  unfold calcEntry
  by_cases h : 0 < getCurrentPrice prices p.symbol <;> simp [h]

theorem calcEntry_quantity (prices : List (String × SymbolPriceData)) (p : Position) :
    (calcEntry prices p).quantity = p.quantity := by
  unfold calcEntry
  by_cases h : 0 < getCurrentPrice prices p.symbol <;> simp [h]

theorem calcEntry_idem (prices : List (String × SymbolPriceData)) (p : Position) :
    calcEntry prices (calcEntry prices p) = calcEntry prices p := by
  by_cases h : 0 < getCurrentPrice prices p.symbol
  · rw [calcEntry, calcEntry]
    simp [calcEntry_symbol, h]
  · rw [calcEntry, calcEntry]
    simp [calcEntry_symbol, h]

theorem calculatePnL_positions (prices : List (String × SymbolPriceData)) :
    ∀ m : List (String × Position),
    (calculatePnL prices m).1 = m.map (fun e => (e.1, calcEntry prices e.2)) := by
  intro m
  induction m with
  | nil => rfl
  | cons e rest ih =>
    obtain ⟨k, p⟩ := e
    simp [calculatePnL, ih]

theorem calculatePnL_snapshot (prices : List (String × SymbolPriceData)) :
    ∀ m : List (String × Position),
    (calculatePnL prices m).2.1 = (m.map (fun e => (e.1, calcEntry prices e.2))).map Prod.snd := by
  intro m
  induction m with
  | nil => rfl
  | cons e rest ih =>
    obtain ⟨k, p⟩ := e
    simp [calculatePnL, ih]

theorem calculatePnL_total_congr (prices : List (String × SymbolPriceData)) :
    ∀ a b : List (String × Position),
    a.map (fun e => (e.1, calcEntry prices e.2)) = b.map (fun e => (e.1, calcEntry prices e.2)) →
    (calculatePnL prices a).2.2 = (calculatePnL prices b).2.2 := by
  intro a
  induction a with
  | nil =>
    intro b h
    cases b with
    | nil => rfl
    | cons e rest => simp at h
  | cons e rest ih =>
    intro b h
    cases b with
    | nil => simp at h
    | cons e' rest' =>
      obtain ⟨k, p⟩ := e
      obtain ⟨k', p'⟩ := e'
      simp only [List.map_cons, List.cons.injEq, Prod.mk.injEq] at h
      obtain ⟨⟨hk, hp⟩, hrest⟩ := h
      have hsym : p.symbol = p'.symbol := by
        rw [← calcEntry_symbol prices p, ← calcEntry_symbol prices p', hp]
      have havg : p.averagePrice = p'.averagePrice := by
        rw [← calcEntry_averagePrice prices p, ← calcEntry_averagePrice prices p', hp]
      have hqty : p.quantity = p'.quantity := by
        rw [← calcEntry_quantity prices p, ← calcEntry_quantity prices p', hp]
      simp only [calculatePnL, hsym, havg, hqty, ih rest' hrest]

theorem map_entry_mapSet (φ : Position → Position) (m : List (String × Position))
    (k : String) (p : Position) :
    (mapSet m k p).map (fun e => (e.1, φ e.2)) =
      mapSet (m.map (fun e => (e.1, φ e.2))) k (φ p) := by
  induction m with
  | nil => simp [mapSet]
  | cons q rest ih =>
    obtain ⟨k', w⟩ := q
    by_cases h : k' = k
    · subst h; simp [mapSet]
    · simp [mapSet, h, ih]

theorem map_entry_mapDelete (φ : Position → Position) (m : List (String × Position))
    (k : String) :
    (mapDelete m k).map (fun e => (e.1, φ e.2)) =
      mapDelete (m.map (fun e => (e.1, φ e.2))) k := by
  induction m with
  | nil => simp [mapDelete]
  | cons q rest ih =>
    obtain ⟨k', w⟩ := q
    by_cases h : k' = k
    · subst h; simp [mapDelete, ih]
    · simp [mapDelete, h, ih]

theorem map_entry_applyEntry (φ : Position → Position) (m : List (String × Position))
    (k : String) (eo : Option Position) :
    (applyEntry m k eo).map (fun e => (e.1, φ e.2)) =
      applyEntry (m.map (fun e => (e.1, φ e.2))) k (eo.map φ) := by
  cases eo with
  | some p => simp [applyEntry, map_entry_mapSet]
  | none => simp [applyEntry, map_entry_mapDelete]

theorem map_entry_applyGroups (φ : Position → Position) :
    ∀ (gs : List (String × List Order)) (m : List (String × Position)),
    (applyGroupsWith id gs m).map (fun e => (e.1, φ e.2)) =
      applyGroupsWith (Option.map φ) gs (m.map (fun e => (e.1, φ e.2))) := by
  intro gs
  induction gs with
  | nil => intro m; rfl
  | cons g gs ih =>
    intro m
    obtain ⟨key, orders⟩ := g
    simp only [applyGroupsWith, id_eq, ih, map_entry_applyEntry]

theorem mapGet_applyEntry_self (m : List (String × Position)) (k : String)
    (eo : Option Position) : mapGet (applyEntry m k eo) k = eo := by
  cases eo with
  | some p => simp [applyEntry, mapGet_mapSet_self]
  | none => simp [applyEntry, mapGet_mapDelete_self]

theorem mapGet_applyEntry_ne (m : List (String × Position)) (k key : String)
    (eo : Option Position) (h : key ≠ k) :
    mapGet (applyEntry m k eo) key = mapGet m key := by
  cases eo with
  | some p => simp [applyEntry, mapGet_mapSet_ne _ _ _ _ h]
  | none => simp [applyEntry, mapGet_mapDelete_ne _ _ _ h]

theorem applyGroups_get_frame (f : Option Position → Option Position) :
    ∀ (gs : List (String × List Order)) (m : List (String × Position)) (key : String),
    key ∉ gs.map Prod.fst →
    mapGet (applyGroupsWith f gs m) key = mapGet m key := by
  intro gs
  induction gs with
  | nil => intro m key _; rfl
  | cons g gs ih =>
    intro m key h
    obtain ⟨k', orders⟩ := g
    simp only [List.map_cons, List.mem_cons, not_or] at h
    rw [applyGroupsWith, ih _ key h.2, mapGet_applyEntry_ne _ _ _ _ h.1]

theorem applyGroups_get_self (f : Option Position → Option Position) :
    ∀ (gs : List (String × List Order)) (m : List (String × Position))
      (key : String) (os : List Order),
    (gs.map Prod.fst).Nodup → (key, os) ∈ gs →
    mapGet (applyGroupsWith f gs m) key = f (groupEntry key os) := by
  intro gs
  induction gs with
  | nil => intro m key os _ hmem; simp at hmem
  | cons g gs ih =>
    intro m key os hnd hmem
    obtain ⟨k', orders⟩ := g
    rw [List.map_cons] at hnd
    have hnd' := List.nodup_cons.mp hnd
    rcases List.mem_cons.mp hmem with heq | htail
    · cases heq
      rw [applyGroupsWith, applyGroups_get_frame f gs _ key hnd'.1,
        mapGet_applyEntry_self]
    · rw [applyGroupsWith]
      exact ih _ key os hnd'.2 htail

theorem applyGroups_noop (f : Option Position → Option Position) :
    ∀ (gs : List (String × List Order)) (m : List (String × Position)),
    (∀ g ∈ gs, mapGet m g.1 = f (groupEntry g.1 g.2)) →
    applyGroupsWith f gs m = m := by
  intro gs
  induction gs with
  | nil => intro m _; rfl
  | cons g gs ih =>
    intro m h
    obtain ⟨key, orders⟩ := g
    have hhead := h (key, orders) (by simp)
    have hstep : applyEntry m key (f (groupEntry key orders)) = m := by
      cases hf : f (groupEntry key orders) with
      | some p =>
        rw [hf] at hhead
        simp [applyEntry, mapSet_of_mapGet_eq _ _ _ hhead]
      | none =>
        rw [hf] at hhead
        simp [applyEntry, mapDelete_of_mapGet_eq_none _ _ hhead]
    rw [applyGroupsWith, hstep]
    exact ih m (fun g hg => h g (by simp [hg]))

theorem applyGroups_idem (f : Option Position → Option Position)
    (gs : List (String × List Order)) (m : List (String × Position))
    (h : (gs.map Prod.fst).Nodup) :
    applyGroupsWith f gs (applyGroupsWith f gs m) = applyGroupsWith f gs m := by
  apply applyGroups_noop
  intro g hg
  exact applyGroups_get_self f gs m g.1 g.2 h (by simpa using hg)

/-! ## Lemmas for the ledger positivity invariant (C9) -/

theorem mem_mapSet {α : Type} (m : List (String × α)) (k : String) (v : α)
    (g : String × α) : g ∈ mapSet m k v → g = (k, v) ∨ g ∈ m := by
  induction m with
  | nil =>
    intro h
    simp only [mapSet, List.mem_singleton] at h
    exact Or.inl h
  | cons p rest ih =>
    obtain ⟨k', w⟩ := p
    by_cases hk : k' = k
    · subst hk
      intro h
      rcases List.mem_cons.mp (by simpa [mapSet] using h) with h1 | h2
      · exact Or.inl h1
      · exact Or.inr (List.mem_cons_of_mem _ h2)
    · intro h
      rcases List.mem_cons.mp (by simpa [mapSet, hk] using h) with h1 | h2
      · rw [h1]
        exact Or.inr (List.mem_cons_self _ _)
      · rcases ih h2 with h3 | h4
        · exact Or.inl h3
        · exact Or.inr (List.mem_cons_of_mem _ h4)

theorem mapGet_mem {α : Type} (m : List (String × α)) (k : String) (v : α)
    (h : mapGet m k = some v) : (k, v) ∈ m := by
  induction m with
  | nil => simp [mapGet] at h
  | cons p rest ih =>
    obtain ⟨k', w⟩ := p
    by_cases hk : k' = k
    · subst hk
      have hred : mapGet ((k', w) :: rest) k' = some w := by simp [mapGet]
      rw [hred] at h
      injection h with h
      subst h
      exact List.mem_cons_self _ _
    · simp only [mapGet, if_neg hk] at h
      exact List.mem_cons_of_mem _ (ih h)

theorem mem_mapDelete_sub {α : Type} (m : List (String × α)) (k : String)
    (g : String × α) (h : g ∈ mapDelete m k) : g ∈ m := by
  induction m with
  | nil => simp [mapDelete] at h
  | cons p rest ih =>
    obtain ⟨k', w⟩ := p
    by_cases hk : k' = k
    · subst hk
      simp only [mapDelete, if_pos rfl] at h
      exact List.mem_cons_of_mem _ (ih h)
    · simp only [mapDelete, if_neg hk, List.mem_cons] at h
      rcases h with rfl | h
      · exact List.mem_cons_self _ _
      · exact List.mem_cons_of_mem _ (ih h)

theorem processSellOrder_quantity (s : PositionState) (o : Order) (k : String) :
    (processSellOrder s o k).positionQty =
      if 0 < s.positionQty then s.positionQty - min o.quantity s.positionQty
      else s.positionQty := by
  unfold processSellOrder
  by_cases h : 0 < s.positionQty
  · simp only [if_pos h]
    by_cases h0 : s.positionQty - min o.quantity s.positionQty = 0 <;> simp [h0]
  · simp [if_neg h, h]

theorem walkOrders_nonneg (positionKey : String) :
    ∀ (orders : List Order) (s : PositionState),
    0 ≤ s.positionQty → (∀ o ∈ orders, 0 ≤ o.quantity) →
    0 ≤ (walkOrders positionKey s orders).positionQty := by
  intro orders
  induction orders with
  | nil =>
    intro s h _
    simpa [walkOrders] using h
  | cons o os ih =>
    intro s h hq
    cases hside : o.side with
    | buy =>
      simp only [walkOrders, hside]
      apply ih
      · have := hq o (List.mem_cons_self _ _)
        simp only [processBuyOrder]
        exact add_nonneg h this
      · intro o' ho'
        exact hq o' (List.mem_cons_of_mem _ ho')
    | sell =>
      simp only [walkOrders, hside]
      apply ih
      · rw [processSellOrder_quantity]
        by_cases hpos : 0 < s.positionQty
        · simp only [if_pos hpos]
          have := min_le_right o.quantity s.positionQty
          linarith
        · simpa [if_neg hpos] using h
      · intro o' ho'
        exact hq o' (List.mem_cons_of_mem _ ho')

theorem mem_insertByTs (o x : Order) :
    ∀ l : List Order, x ∈ insertByTs o l → x = o ∨ x ∈ l := by
  intro l
  induction l with
  | nil =>
    intro h
    simpa [insertByTs] using h
  | cons y ys ih =>
    intro h
    unfold insertByTs at h
    by_cases hc : o.timestamp ≤ y.timestamp
    · rw [if_pos hc] at h
      rcases List.mem_cons.mp h with h1 | h2
      · exact Or.inl h1
      · exact Or.inr h2
    · rw [if_neg hc] at h
      rcases List.mem_cons.mp h with h1 | h2
      · rw [h1]
        exact Or.inr (List.mem_cons_self _ _)
      · rcases ih h2 with h3 | h4
        · exact Or.inl h3
        · exact Or.inr (List.mem_cons_of_mem _ h4)

theorem mem_sortByTs (x : Order) : ∀ l : List Order, x ∈ sortByTs l → x ∈ l := by
  intro l
  induction l with
  | nil =>
    intro h
    simp [sortByTs] at h
  | cons y ys ih =>
    intro h
    unfold sortByTs at h
    rcases mem_insertByTs y x (sortByTs ys) h with rfl | h2
    · exact List.mem_cons_self _ _
    · exact List.mem_cons_of_mem _ (ih h2)

theorem calculatePositionForSymbol_nonneg (os : List Order) (key : String)
    (h : ∀ o ∈ os, 0 ≤ o.quantity) :
    0 ≤ (calculatePositionForSymbol os key).positionQty := by
  apply walkOrders_nonneg key (sortByTs os)
  · simp
  · intro o ho
    exact h o (mem_sortByTs o os ho)

theorem groupEntry_pos (key : String) (os : List Order)
    (h : ∀ o ∈ os, 0 ≤ o.quantity) (p : Position)
    (hp : groupEntry key os = some p) : 0 < p.quantity := by
  unfold groupEntry at hp
  by_cases hq : (calculatePositionForSymbol os key).positionQty ≠ 0
  · simp only [if_pos hq, Option.some.injEq] at hp
    have hnn := calculatePositionForSymbol_nonneg os key h
    have hpos : 0 < (calculatePositionForSymbol os key).positionQty :=
      lt_of_le_of_ne hnn (Ne.symm hq)
    rw [← hp]
    exact hpos
  · simp [if_neg hq] at hp

theorem foldl_groupStep_orders (P : Order → Prop) :
    ∀ (os : List Order) (m : List (String × List Order)),
    (∀ g ∈ m, ∀ o ∈ g.2, P o) → (∀ o ∈ os, P o) →
    ∀ g ∈ os.foldl groupStep m, ∀ o ∈ g.2, P o := by
  intro os
  induction os with
  | nil =>
    intro m hm _
    simpa using hm
  | cons o os ih =>
    intro m hm hos
    rw [List.foldl_cons]
    apply ih
    · intro g hg o' ho'
      cases hget : mapGet m (createPositionKey o.exchange o.symbol) with
      | some existing =>
        rw [show groupStep m o = mapSet m (createPositionKey o.exchange o.symbol)
            (existing ++ [o]) from by simp [groupStep, hget]] at hg
        rcases mem_mapSet _ _ _ _ hg with rfl | hgm
        · simp only [List.mem_append, List.mem_singleton] at ho'
          rcases ho' with hex | rfl
          · exact hm _ (mapGet_mem _ _ _ hget) o' hex
          · exact hos o' (List.mem_cons_self _ _)
        · exact hm g hgm o' ho'
      | none =>
        rw [show groupStep m o = mapSet m (createPositionKey o.exchange o.symbol)
            [o] from by simp [groupStep, hget]] at hg
        rcases mem_mapSet _ _ _ _ hg with rfl | hgm
        · simp only [List.mem_singleton] at ho'
          subst ho'
          exact hos o' (List.mem_cons_self _ _)
        · exact hm g hgm o' ho'
    · intro o' ho'
      exact hos o' (List.mem_cons_of_mem _ ho')

theorem groupOrdersBySymbol_orders (P : Order → Prop) (orders : List Order)
    (h : ∀ o ∈ orders, P o) :
    ∀ g ∈ groupOrdersBySymbol orders, ∀ o ∈ g.2, P o := by
  unfold groupOrdersBySymbol
  apply foldl_groupStep_orders P _ []
  · intro g hg
    simp at hg
  · intro o ho
    exact h o (List.mem_of_mem_filter ho)

theorem posInv_applyGroups :
    ∀ (gs : List (String × List Order)) (m : List (String × Position)),
    PosInv m → (∀ g ∈ gs, ∀ p, groupEntry g.1 g.2 = some p → 0 < p.quantity) →
    PosInv (applyGroupsWith id gs m) := by
  intro gs
  induction gs with
  | nil =>
    intro m hm _
    exact hm
  | cons g gs ih =>
    intro m hm hg
    obtain ⟨key, os⟩ := g
    rw [applyGroupsWith]
    apply ih
    · cases he : groupEntry key os with
      | some p =>
        intro g' hg'
        simp only [id_eq, he, applyEntry] at hg'
        rcases mem_mapSet _ _ _ _ hg' with rfl | hgm
        · exact hg (key, os) (List.mem_cons_self _ _) p he
        · exact hm g' hgm
      | none =>
        intro g' hg'
        simp only [id_eq, he, applyEntry] at hg'
        exact hm g' (mem_mapDelete_sub _ _ _ hg')
    · intro g' hg'
      exact hg g' (List.mem_cons_of_mem _ hg')

theorem posInv_map_calcEntry (prices : List (String × SymbolPriceData))
    (m : List (String × Position)) (h : PosInv m) :
    PosInv (m.map (fun e => (e.1, calcEntry prices e.2))) := by
  intro g hg
  obtain ⟨e, he, rfl⟩ := List.mem_map.mp hg
  simpa [calcEntry_quantity] using h e he

theorem handleTradeData_positions (st : WorkerState) (td : TradeData) :
    (handleTradeData st td).positions = st.positions := by
  unfold handleTradeData
  cases hget : mapGet st.symbolPrices (strToLower td.symbol) <;> simp [hget]

theorem startPushTimer_posInv (st : WorkerState) (h : PosInv st.positions) :
    PosInv (startPushTimer st).1.positions := by
  unfold startPushTimer
  by_cases ht : st.timerRunning
  · simpa [ht] using h
  · simp only [ht, if_neg, ite_false, calculatePnL_positions]
    exact posInv_map_calcEntry _ _ h

theorem posInv_workerStep (st : WorkerState) (msg : InMsg)
    (h : PosInv st.positions) (hm : MsgOrdersNonneg msg) :
    PosInv (workerStep st msg).1.positions := by
  cases msg with
  | tradeData td =>
    simpa [workerStep, handleTradeData_positions] using h
  | subscribeMsg s =>
    simp only [workerStep, subscribeSymbol]
    by_cases hl : ({ st with
        symbolPrices := getOrCreateSymbolPrice st.symbolPrices s } : WorkerState).symbolPrices.length > 0
    · simp only [hl, if_pos]
      exact startPushTimer_posInv _ h
    · simpa [hl] using h
  | unsubscribeMsg s =>
    simp only [workerStep, unsubscribeSymbol]
    by_cases hl : ({ st with
        symbolPrices := mapDelete st.symbolPrices s } : WorkerState).symbolPrices.length = 0
    · simpa [hl, stopPushTimer] using h
    · simpa [hl] using h
  | ordersUpdate orders =>
    simp only [workerStep, handleOrdersUpdate, updatePositions,
      updatePositionsRun_positions, calculatePnL_positions]
    apply posInv_map_calcEntry
    apply posInv_applyGroups _ _ h
    intro g hg p hp
    apply groupEntry_pos g.1 g.2 _ p hp
    exact groupOrdersBySymbol_orders _ orders hm g hg

theorem posInv_workerRun :
    ∀ (msgs : List InMsg) (st : WorkerState),
    PosInv st.positions → (∀ m ∈ msgs, MsgOrdersNonneg m) →
    PosInv (workerRun st msgs).1.positions := by
  intro msgs
  induction msgs with
  | nil =>
    intro st h _
    exact h
  | cons msg msgs ih =>
    intro st h hm
    rw [workerRun]
    apply ih
    · exact posInv_workerStep st msg h (hm msg (List.mem_cons_self _ _))
    · intro m hmem
      exact hm m (List.mem_cons_of_mem _ hmem)

/-! ## Lemmas for reconnect resubscription (C4) -/

theorem mapDelete_mapSet {α : Type} (m : List (String × α)) (k : String) (v : α) :
    mapDelete (mapSet m k v) k = mapDelete m k := by
  induction m with
  | nil => simp [mapSet, mapDelete]
  | cons p rest ih =>
    obtain ⟨k', w⟩ := p
    by_cases h : k' = k
    · subst h; simp [mapSet, mapDelete]
    · simp [mapSet, mapDelete, h, ih]

theorem connectStart_subscriptions (st : AdapterState) :
    (connectStart st).subscriptions = st.subscriptions := by
  unfold connectStart
  split <;> rfl

theorem connectStart_activeStreams (st : AdapterState) :
    (connectStart st).activeStreams = st.activeStreams := by
  unfold connectStart
  split <;> rfl

theorem onOpen_subscriptions (st : AdapterState) :
    (onOpen st).1.subscriptions = st.subscriptions := by
  unfold onOpen subscribeToAllActiveStreams sendStreamMessage
  split <;> simp

theorem onOpen_activeStreams (st : AdapterState) :
    (onOpen st).1.activeStreams = st.activeStreams := by
  unfold onOpen subscribeToAllActiveStreams sendStreamMessage
  split <;> simp

theorem subscribe_registry (st : AdapterState) (cfg : StreamConfig) (cb : Nat) :
    ((subscribe st cfg cb).1.subscriptions = st.subscriptions ∧
     (subscribe st cfg cb).1.activeStreams = st.activeStreams ∧
     cb ∈ (mapGet st.subscriptions (getSubscriptionKey cfg)).getD []) ∨
    ((subscribe st cfg cb).1.subscriptions =
       mapSet st.subscriptions (getSubscriptionKey cfg)
         ((mapGet st.subscriptions (getSubscriptionKey cfg)).getD [] ++ [cb]) ∧
     (subscribe st cfg cb).1.activeStreams = setAdd st.activeStreams (getStreamName cfg) ∧
     cb ∉ (mapGet st.subscriptions (getSubscriptionKey cfg)).getD []) := by
  by_cases hc : cb ∈ (mapGet st.subscriptions (getSubscriptionKey cfg)).getD []
  · left
    refine ⟨?_, ?_, hc⟩ <;> simp [subscribe, hc]
  · right
    refine ⟨?_, ?_, hc⟩ <;>
      · simp only [subscribe, subscribeToStream, sendStreamMessage]
        rw [if_neg (by simpa using hc)]
        split_ifs <;>
          simp [connectStart_subscriptions, connectStart_activeStreams]

theorem unsubscribeFromStream_state (st : AdapterState) (streamName : String) :
    (unsubscribeFromStream st streamName).1 = st := by
  unfold unsubscribeFromStream sendStreamMessage
  split_ifs <;> rfl

theorem unsubscribe_some_empty (st : AdapterState) (cfg : StreamConfig) (c : Nat)
    (h : ((((mapGet st.subscriptions (getSubscriptionKey cfg)).getD []).filter
      (fun s => s ≠ c))).length = 0) :
    (unsubscribe st cfg (some c)).1.subscriptions =
      mapDelete st.subscriptions (getSubscriptionKey cfg) ∧
    (unsubscribe st cfg (some c)).1.activeStreams =
      setDelete st.activeStreams (getStreamName cfg) := by
  constructor <;>
    · simp only [unsubscribe]
      rw [if_pos h]
      split_ifs <;> simp [unsubscribeFromStream_state, mapDelete_mapSet]

theorem unsubscribe_some_nonempty (st : AdapterState) (cfg : StreamConfig) (c : Nat)
    (h : ¬ ((((mapGet st.subscriptions (getSubscriptionKey cfg)).getD []).filter
      (fun s => s ≠ c))).length = 0) :
    (unsubscribe st cfg (some c)).1.subscriptions =
      mapSet st.subscriptions (getSubscriptionKey cfg)
        (((mapGet st.subscriptions (getSubscriptionKey cfg)).getD []).filter
          (fun s => s ≠ c)) ∧
    (unsubscribe st cfg (some c)).1.activeStreams = st.activeStreams := by
  constructor <;>
    · simp only [unsubscribe]
      rw [if_neg h]

theorem unsubscribe_none_registry (st : AdapterState) (cfg : StreamConfig) :
    (unsubscribe st cfg none).1.subscriptions =
      mapDelete st.subscriptions (getSubscriptionKey cfg) ∧
    (unsubscribe st cfg none).1.activeStreams =
      setDelete st.activeStreams (getStreamName cfg) := by
  constructor <;>
    · simp only [unsubscribe]
      split_ifs <;> simp [unsubscribeFromStream_state]

theorem registryInv_congr (C : List StreamConfig) (st st' : AdapterState)
    (h1 : st'.subscriptions = st.subscriptions)
    (h2 : st'.activeStreams = st.activeStreams)
    (h : RegistryInv C st) : RegistryInv C st' := by
  unfold RegistryInv at *
  rw [h1, h2]
  exact h

theorem registryInv_subscribe (C : List StreamConfig) (st : AdapterState)
    (cfg : StreamConfig) (cb : Nat) (hC : CoherentConfigs C) (hcfg : cfg ∈ C)
    (h : RegistryInv C st) : RegistryInv C (subscribe st cfg cb).1 := by
  rcases subscribe_registry st cfg cb with ⟨hs, ha, _⟩ | ⟨hs, ha, _⟩
  · exact registryInv_congr C st _ hs ha h
  · obtain ⟨h1, h2⟩ := h
    constructor
    · intro k l hget
      rw [hs] at hget
      by_cases hk : k = getSubscriptionKey cfg
      · subst hk
        rw [mapGet_mapSet_self] at hget
        refine ⟨?_, cfg, hcfg, rfl⟩
        rw [← Option.some.inj hget]
        simp
      · rw [mapGet_mapSet_ne _ _ _ _ hk] at hget
        exact h1 k l hget
    · intro s
      rw [ha, hs, mem_setAdd]
      by_cases hseq : s = getStreamName cfg
      · subst hseq
        constructor
        · intro _
          exact ⟨cfg, hcfg, rfl, by rw [mapGet_mapSet_self]; simp⟩
        · intro _
          exact Or.inr rfl
      · constructor
        · intro hmem
          rcases hmem with hmem | hmem
          · obtain ⟨cfg', hcfg', hst', hne'⟩ := (h2 s).mp hmem
            refine ⟨cfg', hcfg', hst', ?_⟩
            have hkne : getSubscriptionKey cfg' ≠ getSubscriptionKey cfg := by
              intro hkeq
              exact hseq (by rw [← hst']; exact (hC cfg' hcfg' cfg hcfg).mp hkeq)
            rw [mapGet_mapSet_ne _ _ _ _ hkne]
            exact hne'
          · exact absurd hmem hseq
        · rintro ⟨cfg', hcfg', hst', hne'⟩
          left
          apply (h2 s).mpr
          refine ⟨cfg', hcfg', hst', ?_⟩
          have hkne : getSubscriptionKey cfg' ≠ getSubscriptionKey cfg := by
            intro hkeq
            exact hseq (by rw [← hst']; exact (hC cfg' hcfg' cfg hcfg).mp hkeq)
          rw [mapGet_mapSet_ne _ _ _ _ hkne] at hne'
          exact hne'

theorem registryInv_delete_case (C : List StreamConfig) (st st' : AdapterState)
    (cfg : StreamConfig) (hC : CoherentConfigs C) (hcfg : cfg ∈ C)
    (hs : st'.subscriptions = mapDelete st.subscriptions (getSubscriptionKey cfg))
    (ha : st'.activeStreams = setDelete st.activeStreams (getStreamName cfg))
    (h : RegistryInv C st) : RegistryInv C st' := by
  obtain ⟨h1, h2⟩ := h
  constructor
  · intro k l hget
    rw [hs] at hget
    exact h1 k l (mapGet_mapDelete_cases _ _ _ _ hget)
  · intro s
    rw [ha, hs, mem_setDelete]
    by_cases hseq : s = getStreamName cfg
    · subst hseq
      constructor
      · rintro ⟨_, hne⟩
        exact absurd rfl hne
      · rintro ⟨cfg', hcfg', hst', hne'⟩
        have hkeq : getSubscriptionKey cfg' = getSubscriptionKey cfg :=
          (hC cfg' hcfg' cfg hcfg).mpr hst'
        rw [hkeq, mapGet_mapDelete_self] at hne'
        simp at hne'
    · constructor
      · rintro ⟨hmem, _⟩
        obtain ⟨cfg', hcfg', hst', hne'⟩ := (h2 s).mp hmem
        have hkne : getSubscriptionKey cfg' ≠ getSubscriptionKey cfg := by
          intro hkeq
          exact hseq (by rw [← hst']; exact (hC cfg' hcfg' cfg hcfg).mp hkeq)
        exact ⟨cfg', hcfg', hst', by rw [mapGet_mapDelete_ne _ _ _ hkne]; exact hne'⟩
      · rintro ⟨cfg', hcfg', hst', hne'⟩
        have hkne : getSubscriptionKey cfg' ≠ getSubscriptionKey cfg := by
          intro hkeq
          exact hseq (by rw [← hst']; exact (hC cfg' hcfg' cfg hcfg).mp hkeq)
        rw [mapGet_mapDelete_ne _ _ _ hkne] at hne'
        exact ⟨(h2 s).mpr ⟨cfg', hcfg', hst', hne'⟩, hseq⟩

theorem registryInv_unsubscribe (C : List StreamConfig) (st : AdapterState)
    (cfg : StreamConfig) (cb : Option Nat) (hC : CoherentConfigs C) (hcfg : cfg ∈ C)
    (h : RegistryInv C st) : RegistryInv C (unsubscribe st cfg cb).1 := by
  cases cb with
  | none =>
    obtain ⟨hs, ha⟩ := unsubscribe_none_registry st cfg
    exact registryInv_delete_case C st _ cfg hC hcfg hs ha h
  | some c =>
    by_cases hlen : ((((mapGet st.subscriptions (getSubscriptionKey cfg)).getD []).filter
        (fun s => s ≠ c))).length = 0
    · obtain ⟨hs, ha⟩ := unsubscribe_some_empty st cfg c hlen
      exact registryInv_delete_case C st _ cfg hC hcfg hs ha h
    · obtain ⟨hs, ha⟩ := unsubscribe_some_nonempty st cfg c hlen
      obtain ⟨h1, h2⟩ := h
      have hfil_ne : (((mapGet st.subscriptions (getSubscriptionKey cfg)).getD []).filter
          (fun s => s ≠ c)) ≠ [] := by
        intro h0
        exact hlen (by rw [h0]; rfl)
      have hl0_ne : (mapGet st.subscriptions (getSubscriptionKey cfg)).getD [] ≠ [] := by
        intro h0
        rw [h0] at hfil_ne
        simp at hfil_ne
      constructor
      · intro k l hget
        rw [hs] at hget
        by_cases hk : k = getSubscriptionKey cfg
        · subst hk
          rw [mapGet_mapSet_self] at hget
          refine ⟨?_, cfg, hcfg, rfl⟩
          rw [← Option.some.inj hget]
          exact hfil_ne
        · rw [mapGet_mapSet_ne _ _ _ _ hk] at hget
          exact h1 k l hget
      · intro s
        rw [ha, hs, h2 s]
        constructor
        · rintro ⟨cfg', hcfg', hst', hne'⟩
          refine ⟨cfg', hcfg', hst', ?_⟩
          by_cases hk : getSubscriptionKey cfg' = getSubscriptionKey cfg
          · rw [hk, mapGet_mapSet_self]
            simpa using hfil_ne
          · rw [mapGet_mapSet_ne _ _ _ _ hk]
            exact hne'
        · rintro ⟨cfg', hcfg', hst', hne'⟩
          refine ⟨cfg', hcfg', hst', ?_⟩
          by_cases hk : getSubscriptionKey cfg' = getSubscriptionKey cfg
          · rw [hk]
            exact hl0_ne
          · rw [mapGet_mapSet_ne _ _ _ _ hk] at hne'
            exact hne'

theorem registryInv_applyOp (C : List StreamConfig) (st : AdapterState) (op : AdapterOp)
    (hC : CoherentConfigs C) (hop : ∀ cfg ∈ opConfigs op, cfg ∈ C)
    (h : RegistryInv C st) : RegistryInv C (applyOp st op) := by
  cases op with
  | subOp cfg cb =>
    exact registryInv_subscribe C st cfg cb hC (hop cfg (by simp [opConfigs])) h
  | unsubOp cfg cb =>
    exact registryInv_unsubscribe C st cfg cb hC (hop cfg (by simp [opConfigs])) h
  | closeOp code =>
    exact registryInv_congr C st _ rfl rfl h
  | openOp =>
    exact registryInv_congr C st _ (onOpen_subscriptions st) (onOpen_activeStreams st) h

theorem registryInv_applyOps (C : List StreamConfig) :
    ∀ (ops : List AdapterOp) (st : AdapterState),
    CoherentConfigs C → (∀ op ∈ ops, ∀ cfg ∈ opConfigs op, cfg ∈ C) →
    RegistryInv C st → RegistryInv C (applyOps st ops) := by
  intro ops
  induction ops with
  | nil =>
    intro st _ _ h
    exact h
  | cons op ops ih =>
    intro st hC hops h
    rw [applyOps]
    apply ih _ hC
    · intro op' hop'
      exact hops op' (List.mem_cons_of_mem _ hop')
    · exact registryInv_applyOp C st op hC (hops op (List.mem_cons_self _ _)) h

theorem registryInv_initial (C : List StreamConfig) :
    RegistryInv C initialAdapterState := by
  constructor
  · intro k l hget
    simp [initialAdapterState, mapGet] at hget
  · intro s
    simp [initialAdapterState, mapGet]

theorem opConfigs_subset_opsConfigs :
    ∀ (ops : List AdapterOp) (op : AdapterOp), op ∈ ops →
    ∀ cfg ∈ opConfigs op, cfg ∈ opsConfigs ops := by
  intro ops
  induction ops with
  | nil =>
    intro op h
    simp at h
  | cons o os ih =>
    intro op h cfg hcfg
    rcases List.mem_cons.mp h with rfl | h2
    · exact List.mem_append.mpr (Or.inl hcfg)
    · exact List.mem_append.mpr (Or.inr (ih op h2 cfg hcfg))

theorem reconnectCycle_spec (st : AdapterState) :
    (reconnectCycle st).1.subscriptions = st.subscriptions ∧
    subscribedStreams (reconnectCycle st).2 = st.activeStreams := by
  have h1 : connectStart (onCloseState st) =
      { st with isConnected := false, ws := some false,
                socketsCreated := st.socketsCreated + 1 } := by
    unfold connectStart onCloseState
    rw [if_neg (by simp)]
  constructor
  · unfold reconnectCycle
    rw [onOpen_subscriptions, connectStart_subscriptions]
    rfl
  · unfold reconnectCycle
    rw [h1]
    unfold onOpen subscribeToAllActiveStreams sendStreamMessage
    by_cases hact : st.activeStreams = []
    · simp [hact, subscribedStreams]
    · simp [hact, subscribedStreams]

/-! ## Claim theorems -/

/-- C1: the multiplexing invariant.  From any connected adapter state in which
a feed identity has no subscribers and its stream is not active, a sequence of
subscribes with distinct callbacks `cs` emits exactly one wire SUBSCRIBE frame
(for that stream) and no UNSUBSCRIBE; unsubscribing all but one of them (`ds`,
with `ds ++ [e]` a permutation of `cs`) emits nothing; the final unsubscribe
of `e` emits exactly one wire UNSUBSCRIBE frame. -/
theorem c1_multiplexing (st : AdapterState) (cfg : StreamConfig)
    (cs ds : List Nat) (e : Nat)
    (hconn : st.isConnected = true) (hws : st.ws = some true)
    (hkey : mapGet st.subscriptions (getSubscriptionKey cfg) = none)
    (hstream : getStreamName cfg ∉ st.activeStreams)
    (hnodup : cs.Nodup) (hperm : cs.Perm (ds ++ [e])) :
    (runSubscribes st cfg cs).2 =
      [{ method := .subscribeMethod, params := [getStreamName cfg] }] ∧
    (runUnsubscribes (runSubscribes st cfg cs).1 cfg ds).2 = [] ∧
    (unsubscribe (runUnsubscribes (runSubscribes st cfg cs).1 cfg ds).1 cfg (some e)).2 =
      [{ method := .unsubscribeMethod, params := [getStreamName cfg] }] := by
  cases cs with
  | nil =>
    exfalso
    have hlen := hperm.length_eq
    simp at hlen
  | cons c cs' =>
    have h1 := subscribe_fresh st cfg c hconn hws hkey hstream
    have hnd := List.nodup_cons.mp hnodup
    have h2 := runSubscribes_existing cfg cs'
      { st with subscriptions := mapSet st.subscriptions (getSubscriptionKey cfg) [c],
                activeStreams := setAdd st.activeStreams (getStreamName cfg) }
      [c] (by simpa using hconn) (by simp [mapGet_mapSet_self])
      (by simp [mem_setAdd])
      (by
        intro x hx
        simp only [List.mem_singleton]
        intro hxc
        subst hxc
        exact hnd.1 hx)
      hnd.2
    have hrun : runSubscribes st cfg (c :: cs') =
        ({ st with
            subscriptions := mapSet st.subscriptions (getSubscriptionKey cfg) (c :: cs'),
            activeStreams := setAdd st.activeStreams (getStreamName cfg) },
         [{ method := .subscribeMethod, params := [getStreamName cfg] }]) := by
      simp [runSubscribes, h1, h2, mapSet_mapSet]
    have hde : (ds ++ [e]).Nodup := hperm.nodup hnodup
    have heds : e ∉ ds := by
      intro hmem
      exact (List.nodup_append.mp hde).2.2 hmem (by simp)
    have hecs : e ∈ (c :: cs') := hperm.mem_iff.mpr (by simp)
    have h3 := runUnsubscribes_keep cfg e ds
      { st with
          subscriptions := mapSet st.subscriptions (getSubscriptionKey cfg) (c :: cs'),
          activeStreams := setAdd st.activeStreams (getStreamName cfg) }
      (c :: cs') (by simp [mapGet_mapSet_self]) hecs heds
    have hfin : ds.foldl (fun acc d => acc.filter (fun s => s ≠ d)) (c :: cs') = [e] := by
      rw [foldl_filter_eq]
      exact filter_not_mem_of_perm (c :: cs') ds e hperm heds
    refine ⟨by rw [hrun], ?_, ?_⟩
    · rw [hrun, h3]
    · rw [hrun, h3]
      simp only [hfin, mapSet_mapSet]
      simp [unsubscribe, mapGet_mapSet_self, unsubscribeFromStream, sendStreamMessage,
        hconn, hws]

/-- C1 witness: three distinct callbacks on a fresh trade identity of a
connected adapter, then unsubscribing two and finally the third. -/
theorem c1_multiplexing_witness :
    (runSubscribes { initialAdapterState with isConnected := true, ws := some true }
        { symbol := "ETHUSDT", streamType := .trade, interval := none } [1, 2, 3]).2 =
      [{ method := .subscribeMethod,
         params := [getStreamName
           { symbol := "ETHUSDT", streamType := .trade, interval := none }] }] ∧
    (runUnsubscribes
        (runSubscribes { initialAdapterState with isConnected := true, ws := some true }
          { symbol := "ETHUSDT", streamType := .trade, interval := none } [1, 2, 3]).1
        { symbol := "ETHUSDT", streamType := .trade, interval := none } [1, 2]).2 = [] ∧
    (unsubscribe
        (runUnsubscribes
          (runSubscribes { initialAdapterState with isConnected := true, ws := some true }
            { symbol := "ETHUSDT", streamType := .trade, interval := none } [1, 2, 3]).1
          { symbol := "ETHUSDT", streamType := .trade, interval := none } [1, 2]).1
        { symbol := "ETHUSDT", streamType := .trade, interval := none } (some 3)).2 =
      [{ method := .unsubscribeMethod,
         params := [getStreamName
           { symbol := "ETHUSDT", streamType := .trade, interval := none }] }] :=
  c1_multiplexing { initialAdapterState with isConnected := true, ws := some true }
    { symbol := "ETHUSDT", streamType := .trade, interval := none } [1, 2, 3] [1, 2] 3
    (by decide) (by decide) (by decide) (by decide) (by decide) (by decide)

/-- C5: the backoff bound.  The delay scheduled before reconnect attempt `k`
(for `1 ≤ k ≤ maxReconnectAttempts`) is `reconnectDelay * 2 ^ (k - 1)`; a run
of consecutive failures from a fresh counter schedules exactly
`maxReconnectAttempts` attempts with those delays and then reports the
terminal failure exactly once, scheduling nothing further. -/
theorem c5_backoff :
    (∀ k : Nat, 1 ≤ k → k ≤ maxReconnectAttempts →
       handleReconnect (k - 1) = (k, some (k, reconnectDelay * 2 ^ (k - 1)))) ∧
    (∀ fuel : Nat, maxReconnectAttempts < fuel →
       failureRun fuel 0 =
         (List.range maxReconnectAttempts).map
           (fun i => ReconnectEvent.scheduled (i + 1) (reconnectDelay * 2 ^ i)) ++
         [ReconnectEvent.terminal]) := by
  constructor
  · intro k h1 h2
    have h3 : k - 1 < maxReconnectAttempts := by omega
    have h4 : k - 1 + 1 = k := by omega
    rw [handleReconnect_of_lt (k - 1) h3, h4]
  · intro fuel h
    have hs := failureRun_spec fuel 0 (by omega)
    simpa using hs

/-- C5 witness: the third attempt is delayed `1000 * 2 ^ 2` ms, and a run of
six consecutive failures schedules attempts 1..5 with doubling delays and then
reports the terminal failure once. -/
theorem c5_backoff_witness :
    handleReconnect 2 = (3, some (3, 4000)) ∧
    failureRun 6 0 =
      [ReconnectEvent.scheduled 1 1000, ReconnectEvent.scheduled 2 2000,
       ReconnectEvent.scheduled 3 4000, ReconnectEvent.scheduled 4 8000,
       ReconnectEvent.scheduled 5 16000, ReconnectEvent.terminal] := by
  constructor
  · exact c5_backoff.1 3 (by decide) (by decide)
  · have h := c5_backoff.2 6 (by decide)
    simpa using h

/-- C7: dispatch fault isolation.  If one registered callback throws on a
payload, the dispatch still completes normally (`.ok`, nothing propagated to
the caller), the failure is logged, and every callback registered for the
dispatch — in particular every non-throwing one — is still invoked with the
payload. -/
theorem c7_dispatch_isolation {α : Type} (subs : List (Callback α)) (payload : α)
    (cb : Callback α) (e : String) (hmem : cb ∈ subs)
    (herr : cb.run payload = .error e) :
    ∃ evs, notifySubscriptions subs payload = .ok evs ∧
      evs.length = subs.length ∧
      DispatchEvent.errorLogged cb.id e ∈ evs ∧
      ∀ c ∈ subs, ∀ u, c.run payload = .ok u →
        DispatchEvent.delivered c.id payload ∈ evs := by
  refine ⟨subs.map (fun c => dispatchResult c payload),
    notifySubscriptions_eq subs payload, by simp, ?_, ?_⟩
  · exact List.mem_map.mpr ⟨cb, hmem, by simp [dispatchResult, herr]⟩
  · intro c hc u hu
    exact List.mem_map.mpr ⟨c, hc, by simp [dispatchResult, hu]⟩

/-- C7 witness: with three subscribers where the first throws, callbacks two
and three still receive the payload and the failure is logged, not propagated. -/
theorem c7_dispatch_isolation_witness :
    ∃ evs, notifySubscriptions
        [({ id := 1, run := fun _ => Except.error "boom" } : Callback Nat),
         { id := 2, run := fun _ => Except.ok () },
         { id := 3, run := fun _ => Except.ok () }] 42 = .ok evs ∧
      evs.length = 3 ∧
      DispatchEvent.errorLogged 1 "boom" ∈ evs ∧
      ∀ c ∈ [({ id := 1, run := fun _ => Except.error "boom" } : Callback Nat),
             { id := 2, run := fun _ => Except.ok () },
             { id := 3, run := fun _ => Except.ok () }], ∀ u, c.run 42 = .ok u →
        DispatchEvent.delivered c.id 42 ∈ evs :=
  c7_dispatch_isolation
    [({ id := 1, run := fun _ => Except.error "boom" } : Callback Nat),
     { id := 2, run := fun _ => Except.ok () },
     { id := 3, run := fun _ => Except.ok () }] 42
    { id := 1, run := fun _ => Except.error "boom" } "boom"
    (List.mem_cons_self _ _) rfl

/-- C10: a `TRADE_TICK` (worker message type `TRADE_DATA`) for a symbol whose
lowercased name is not in the price cache leaves the whole accounting state
unchanged and emits no outbound message. -/
theorem c10_trade_tick_frame (st : WorkerState) (td : TradeData)
    (h : mapGet st.symbolPrices (strToLower td.symbol) = none) :
    workerStep st (InMsg.tradeData td) = (st, []) := by
  simp [workerStep, handleTradeData, h]

/-- C10 witness: a tick for unsubscribed "BTCUSDT" on the fresh worker. -/
theorem c10_trade_tick_frame_witness :
    workerStep initWorker
      (InMsg.tradeData { symbol := "BTCUSDT", price := 100, quantity := 1, timestamp := 7 }) =
      (initWorker, []) :=
  c10_trade_tick_frame initWorker
    { symbol := "BTCUSDT", price := 100, quantity := 1, timestamp := 7 } (by decide)

/-- C6 counterexample: from the fresh adapter, a first `connect()` puts the
adapter in the Connecting state (socket present, not yet connected, one
physical socket built); a further `connect()` call in that state constructs a
second physical `WebSocket`, so connect-while-Connecting is not single-flight. -/
theorem c6_counterexample :
    (connectStart initialAdapterState).ws.isSome = true ∧
    (connectStart initialAdapterState).isConnected = false ∧
    (connectStart initialAdapterState).socketsCreated = 1 ∧
    (connectStart (connectStart initialAdapterState)).socketsCreated = 2 := by
  decide

/-- C6 amended: a `connect()` call while Connected resolves without building a
second physical WebSocket, and the single-flight guard lives in `subscribe`:
while a connect is already pending (`connectingPromise` set) and the adapter is
disconnected, a `subscribe` call builds no socket, leaves `ws` alone and sends
nothing.  A direct `connect()` call while Connecting is not guarded (see the
counterexample). -/
theorem c6_amended :
    (∀ st : AdapterState, st.ws.isSome = true → st.isConnected = true →
       connectStart st = st) ∧
    (∀ (st : AdapterState) (cfg : StreamConfig) (cb : Nat),
       st.isConnected = false → st.connectingPromise = true →
       (subscribe st cfg cb).1.socketsCreated = st.socketsCreated ∧
       (subscribe st cfg cb).1.ws = st.ws ∧
       (subscribe st cfg cb).2 = []) := by
  constructor
  · intro st h1 h2
    simp [connectStart, h1, h2]
  · intro st cfg cb h1 h2
    by_cases hc : cb ∈ (mapGet st.subscriptions (getSubscriptionKey cfg)).getD []
    · simp [subscribe, hc]
    · simp [subscribe, hc, h1, h2]

/-- C6 amended witness: instantiated at a Connected state and at a
Connecting-with-pending-promise subscribe. -/
theorem c6_amended_witness :
    (connectStart
      { initialAdapterState with ws := some true, isConnected := true } =
      { initialAdapterState with ws := some true, isConnected := true }) ∧
    ((subscribe
        { initialAdapterState with ws := some false, connectingPromise := true,
                                   socketsCreated := 1 }
        { symbol := "ETHUSDT", streamType := .trade, interval := none } 1).1.socketsCreated = 1) :=
  ⟨c6_amended.1 _ (by decide) (by decide),
   (c6_amended.2
      { initialAdapterState with ws := some false, connectingPromise := true,
                                 socketsCreated := 1 }
      { symbol := "ETHUSDT", streamType := .trade, interval := none } 1
      (by decide) (by decide)).1⟩

/-- C8 counterexample: subscribing the accounting engine to "BTCUSDT" creates
the price sample under the raw key, but a `TRADE_TICK` for the very same
symbol is looked up under the lowercased key and therefore does not update the
sample (the whole state is unchanged), refuting "updated by every TRADE_TICK
for that symbol". -/
theorem c8_counterexample :
    (workerStep (workerStep initWorker (InMsg.subscribeMsg "BTCUSDT")).1
        (InMsg.tradeData { symbol := "BTCUSDT", price := 100, quantity := 1, timestamp := 7 })).1 =
      (workerStep initWorker (InMsg.subscribeMsg "BTCUSDT")).1 ∧
    mapGet (workerStep initWorker (InMsg.subscribeMsg "BTCUSDT")).1.symbolPrices "BTCUSDT" =
      some { price := 0, lastUpdate := 0 } := by
  decide

/-- C8 amended: restricted to subscription keys that equal the lowercased tick
symbol (in particular lowercase symbols, which is how the price cache is
keyed consistently), the price-sample lifecycle holds: `SUBSCRIBE` creates the
sample with no value (price `0`), every `TRADE_TICK` whose lowercased symbol
matches the key updates it, `UNSUBSCRIBE` deletes it, and after an
`UNSUBSCRIBE` followed by a `SUBSCRIBE` the sample is reset, so no price from
before the unsubscribe is observable. -/
theorem c8_amended :
    (∀ (st : WorkerState) (s : String), mapGet st.symbolPrices s = none →
       mapGet (workerStep st (InMsg.subscribeMsg s)).1.symbolPrices s =
         some { price := 0, lastUpdate := 0 }) ∧
    (∀ (st : WorkerState) (td : TradeData),
       (mapGet st.symbolPrices (strToLower td.symbol)).isSome = true →
       mapGet (workerStep st (InMsg.tradeData td)).1.symbolPrices (strToLower td.symbol) =
         some { price := td.price, lastUpdate := td.timestamp }) ∧
    (∀ (st : WorkerState) (s : String),
       mapGet (workerStep st (InMsg.unsubscribeMsg s)).1.symbolPrices s = none) ∧
    (∀ (st : WorkerState) (s : String),
       mapGet (workerStep
         (workerStep st (InMsg.unsubscribeMsg s)).1 (InMsg.subscribeMsg s)).1.symbolPrices s =
         some { price := 0, lastUpdate := 0 }) := by
  have hsub : ∀ (st : WorkerState) (s : String), mapGet st.symbolPrices s = none →
      mapGet (workerStep st (InMsg.subscribeMsg s)).1.symbolPrices s =
        some { price := 0, lastUpdate := 0 } := by
    intro st s h
    have hcreated : getOrCreateSymbolPrice st.symbolPrices s =
        mapSet st.symbolPrices s { price := 0, lastUpdate := 0 } := by
      simp [getOrCreateSymbolPrice, h]
    show mapGet (subscribeSymbol st s).1.symbolPrices s = _
    rw [subscribeSymbol_symbolPrices, hcreated, mapGet_mapSet_self]
  have hunsub : ∀ (st : WorkerState) (s : String),
      mapGet (workerStep st (InMsg.unsubscribeMsg s)).1.symbolPrices s = none := by
    intro st s
    show mapGet (unsubscribeSymbol st s).symbolPrices s = none
    rw [unsubscribeSymbol_symbolPrices, mapGet_mapDelete_self]
  refine ⟨hsub, ?_, hunsub, ?_⟩
  · intro st td h
    obtain ⟨d, hd⟩ := Option.isSome_iff_exists.mp h
    simp [workerStep, handleTradeData, hd, mapGet_mapSet_self]
  · intro st s
    exact hsub _ s (hunsub st s)

/-- C8 amended witness: the lifecycle run on the lowercase symbol "btcusdt". -/
theorem c8_amended_witness :
    mapGet (workerStep initWorker (InMsg.subscribeMsg "btcusdt")).1.symbolPrices "btcusdt" =
      some { price := 0, lastUpdate := 0 } ∧
    mapGet (workerStep
        (workerStep initWorker (InMsg.subscribeMsg "btcusdt")).1
        (InMsg.tradeData { symbol := "BTCUSDT", price := 150, quantity := 1, timestamp := 5 })).1.symbolPrices
        "btcusdt" = some { price := 150, lastUpdate := 5 } := by
  refine ⟨c8_amended.1 initWorker "btcusdt" (by decide), ?_⟩
  have h := c8_amended.2.1 (workerStep initWorker (InMsg.subscribeMsg "btcusdt")).1
    { symbol := "BTCUSDT", price := 150, quantity := 1, timestamp := 5 } (by decide)
  simpa using h

/-- C9: the implicit ledger positivity invariant.  (i) Processing any message
sequence whose orders all have non-negative quantities preserves the invariant
that every ledger entry has strictly positive quantity — in particular no
short position is ever created.  (ii) When the recomputed quantity for a
group is non-zero, the stored entry is exactly that quantity together with
`averagePrice = positionCost / positionQty`.  (iii) A sell with no open
position leaves the walk state unchanged.  (iv) A sell is offset by at most
the current long quantity. -/
theorem c9_ledger_positive :
    (∀ (st : WorkerState) (msgs : List InMsg),
       PosInv st.positions → (∀ m ∈ msgs, MsgOrdersNonneg m) →
       PosInv (workerRun st msgs).1.positions) ∧
    (∀ (key : String) (os : List Order),
       (∀ o ∈ os, 0 ≤ o.quantity) →
       (calculatePositionForSymbol os key).positionQty ≠ 0 →
       groupEntry key os = some
         { symbol := (splitPositionKey key).2, exchange := (splitPositionKey key).1,
           quantity := (calculatePositionForSymbol os key).positionQty,
           averagePrice := (calculatePositionForSymbol os key).positionCost /
             (calculatePositionForSymbol os key).positionQty,
           unrealizedPnL := 0 } ∧
       0 < (calculatePositionForSymbol os key).positionQty) ∧
    (∀ (s : PositionState) (o : Order) (k : String), ¬ 0 < s.positionQty →
       processSellOrder s o k = s) ∧
    (∀ (s : PositionState) (o : Order) (k : String), 0 < s.positionQty →
       (processSellOrder s o k).positionQty =
         s.positionQty - min o.quantity s.positionQty ∧
       min o.quantity s.positionQty ≤ s.positionQty) := by
  refine ⟨fun st msgs h hm => posInv_workerRun msgs st h hm, ?_, ?_, ?_⟩
  · intro key os hq hnz
    have hnn := calculatePositionForSymbol_nonneg os key hq
    have hpos : 0 < (calculatePositionForSymbol os key).positionQty :=
      lt_of_le_of_ne hnn (Ne.symm hnz)
    refine ⟨?_, hpos⟩
    unfold groupEntry
    rw [if_pos hnz, abs_of_pos hpos]
  · intro s o k h
    unfold processSellOrder
    rw [if_neg h]
  · intro s o k h
    refine ⟨?_, min_le_right _ _⟩
    rw [processSellOrder_quantity, if_pos h]

unseal Rat.mul Rat.add Rat.sub Rat.inv in
/-- C9 witness: the invariant applied to a concrete run (one buy order), the
entry equation for that group, and the sell guards at concrete states. -/
theorem c9_ledger_positive_witness :
    PosInv (workerRun initWorker
      [InMsg.ordersUpdate
        [{ id := "1", symbol := "BTCUSDT", exchange := "BINANCE", side := .buy,
           price := 100, quantity := 1, status := .filled, timestamp := 1 }]]).1.positions ∧
    (0 < (calculatePositionForSymbol
        [{ id := "1", symbol := "BTCUSDT", exchange := "BINANCE", side := .buy,
           price := 100, quantity := 1, status := .filled, timestamp := 1 }]
        "BINANCE:BTCUSDT").positionQty) ∧
    processSellOrder { positionQty := 0, positionCost := 0, activeOrders := [] }
      { id := "9", symbol := "BTCUSDT", exchange := "BINANCE", side := .sell,
        price := 100, quantity := 1, status := .filled, timestamp := 9 } "BINANCE:BTCUSDT" =
      { positionQty := 0, positionCost := 0, activeOrders := [] } ∧
    min ({ id := "9", symbol := "BTCUSDT", exchange := "BINANCE", side := .sell,
           price := 100, quantity := 5, status := .filled, timestamp := 9 } : Order).quantity
      (2 : ℚ) ≤ 2 := by
  refine ⟨?_, ?_, ?_, ?_⟩
  · exact c9_ledger_positive.1 initWorker _
      (by intro g hg; exact absurd hg (List.not_mem_nil g))
      (by
        intro m hm
        rcases List.mem_cons.mp hm with rfl | hnil
        · intro o ho
          rcases List.mem_cons.mp ho with rfl | hnil2
          · norm_num
          · exact absurd hnil2 (List.not_mem_nil o)
        · exact absurd hnil (List.not_mem_nil m))
  · exact (c9_ledger_positive.2.1 "BINANCE:BTCUSDT" _
      (by
        intro o ho
        rcases List.mem_cons.mp ho with rfl | hnil
        · norm_num
        · exact absurd hnil (List.not_mem_nil o))
      (by decide)).2
  · exact c9_ledger_positive.2.2.1 _ _ "BINANCE:BTCUSDT" (by norm_num)
  · exact (c9_ledger_positive.2.2.2
      { positionQty := 2, positionCost := 300, activeOrders := [] }
      { id := "9", symbol := "BTCUSDT", exchange := "BINANCE", side := .sell,
        price := 100, quantity := 5, status := .filled, timestamp := 9 } "BINANCE:BTCUSDT"
      (by norm_num)).2

unseal Rat.mul Rat.add Rat.sub Rat.inv in
/-- C3 counterexample: sending the Filled-order list `[Buy 1@100, Sell 1@150]`
in two consecutive `ORDERS_UPDATE` messages leaves the final position set
empty both times but emits `POSITION_CLOSED` twice — once per recomputation
whose final quantity is zero — refuting "exactly once per actual transition
to zero". -/
theorem c3_counterexample :
    countClosed (workerRun initWorker
      [InMsg.ordersUpdate
         [{ id := "1", symbol := "BTCUSDT", exchange := "BINANCE", side := .buy,
            price := 100, quantity := 1, status := .filled, timestamp := 1 },
          { id := "2", symbol := "BTCUSDT", exchange := "BINANCE", side := .sell,
            price := 150, quantity := 1, status := .filled, timestamp := 2 }],
       InMsg.ordersUpdate
         [{ id := "1", symbol := "BTCUSDT", exchange := "BINANCE", side := .buy,
            price := 100, quantity := 1, status := .filled, timestamp := 1 },
          { id := "2", symbol := "BTCUSDT", exchange := "BINANCE", side := .sell,
            price := 150, quantity := 1, status := .filled, timestamp := 2 }]]).2 = 2 ∧
    (workerRun initWorker
      [InMsg.ordersUpdate
         [{ id := "1", symbol := "BTCUSDT", exchange := "BINANCE", side := .buy,
            price := 100, quantity := 1, status := .filled, timestamp := 1 },
          { id := "2", symbol := "BTCUSDT", exchange := "BINANCE", side := .sell,
            price := 150, quantity := 1, status := .filled, timestamp := 2 }],
       InMsg.ordersUpdate
         [{ id := "1", symbol := "BTCUSDT", exchange := "BINANCE", side := .buy,
            price := 100, quantity := 1, status := .filled, timestamp := 1 },
          { id := "2", symbol := "BTCUSDT", exchange := "BINANCE", side := .sell,
            price := 150, quantity := 1, status := .filled, timestamp := 2 }]]).1.positions =
      [] := by
  decide

/-- C3 amended: recomputation from the same Filled-order list is idempotent on
the whole engine state — feeding the same `ORDERS_UPDATE` twice yields the
same final position set — and the second recomputation emits exactly the same
outbound batch as the first: `POSITION_CLOSED` fires once per recomputation
whose group quantity is zero (so twice across the two updates), not once per
actual close transition. -/
theorem c3_amended (st : WorkerState) (orders : List Order) :
    (workerStep (workerStep st (InMsg.ordersUpdate orders)).1 (InMsg.ordersUpdate orders)).1 =
      (workerStep st (InMsg.ordersUpdate orders)).1 ∧
    (workerStep (workerStep st (InMsg.ordersUpdate orders)).1 (InMsg.ordersUpdate orders)).2 =
      (workerStep st (InMsg.ordersUpdate orders)).2 := by
  have hnodup := groupOrdersBySymbol_keys_nodup orders
  have hFidem : ∀ m : List (String × Position),
      (m.map (fun e => (e.1, calcEntry st.symbolPrices e.2))).map
        (fun e => (e.1, calcEntry st.symbolPrices e.2)) =
      m.map (fun e => (e.1, calcEntry st.symbolPrices e.2)) := by
    intro m
    rw [List.map_map]
    apply List.map_congr_left
    intro e _
    simp [Function.comp, calcEntry_idem]
  have hkey : (applyGroupsWith id (groupOrdersBySymbol orders)
        ((applyGroupsWith id (groupOrdersBySymbol orders) st.positions).map
          (fun e => (e.1, calcEntry st.symbolPrices e.2)))).map
        (fun e => (e.1, calcEntry st.symbolPrices e.2)) =
      (applyGroupsWith id (groupOrdersBySymbol orders) st.positions).map
        (fun e => (e.1, calcEntry st.symbolPrices e.2)) := by
    rw [map_entry_applyGroups, hFidem, map_entry_applyGroups,
      applyGroups_idem _ _ _ hnodup, ← map_entry_applyGroups]
  constructor
  · simp only [workerStep, handleOrdersUpdate, updatePositions,
      updatePositionsRun_positions, calculatePnL_positions]
    congr 1
  · simp only [workerStep, handleOrdersUpdate, updatePositions,
      updatePositionsRun_positions, calculatePnL_positions, calculatePnL_snapshot]
    rw [updatePositionsRun_msgs_indep (groupOrdersBySymbol orders)
        ((applyGroupsWith id (groupOrdersBySymbol orders) st.positions).map
          (fun e => (e.1, calcEntry st.symbolPrices e.2))) st.positions,
      hkey,
      calculatePnL_total_congr st.symbolPrices
        (applyGroupsWith id (groupOrdersBySymbol orders)
          ((applyGroupsWith id (groupOrdersBySymbol orders) st.positions).map
            (fun e => (e.1, calcEntry st.symbolPrices e.2))))
        (applyGroupsWith id (groupOrdersBySymbol orders) st.positions) hkey]

unseal Rat.mul Rat.add Rat.sub Rat.inv in
/-- C2: the PnL example.  Feeding the engine `SUBSCRIBE btcusdt`, a trade tick
at 150, and an `ORDERS_UPDATE` with filled orders Buy 1@100 and Buy 1@200
yields the position `quantity 2, averageCost 150, unrealizedPnL 0` (both in
the ledger and in the pushed `PNL_UPDATE`); adding the filled order Sell 1@300
leaves `quantity 1, averageCost 150`, and the v1 `updatePositions` walk cited
by the spec realizes a gain of `300 - 150 = 150` on that sale. -/
theorem c2_pnl_example :
    (workerRun initWorker
        [InMsg.subscribeMsg "btcusdt",
         InMsg.tradeData { symbol := "BTCUSDT", price := 150, quantity := 1, timestamp := 5 },
         InMsg.ordersUpdate
           [{ id := "1", symbol := "BTCUSDT", exchange := "BINANCE", side := .buy,
              price := 100, quantity := 1, status := .filled, timestamp := 1 },
            { id := "2", symbol := "BTCUSDT", exchange := "BINANCE", side := .buy,
              price := 200, quantity := 1, status := .filled, timestamp := 2 }]]).1.positions =
      [("BINANCE:BTCUSDT",
        { symbol := "BTCUSDT", exchange := "BINANCE", quantity := 2,
          averagePrice := 150, unrealizedPnL := 0 })] ∧
    (workerRun initWorker
        [InMsg.subscribeMsg "btcusdt",
         InMsg.tradeData { symbol := "BTCUSDT", price := 150, quantity := 1, timestamp := 5 },
         InMsg.ordersUpdate
           [{ id := "1", symbol := "BTCUSDT", exchange := "BINANCE", side := .buy,
              price := 100, quantity := 1, status := .filled, timestamp := 1 },
            { id := "2", symbol := "BTCUSDT", exchange := "BINANCE", side := .buy,
              price := 200, quantity := 1, status := .filled, timestamp := 2 }]]).2 =
      [OutMsg.pnlUpdate [] 0,
       OutMsg.pnlUpdate
         [{ symbol := "BTCUSDT", exchange := "BINANCE", quantity := 2,
            averagePrice := 150, unrealizedPnL := 0 }] 0] ∧
    (workerRun initWorker
        [InMsg.subscribeMsg "btcusdt",
         InMsg.tradeData { symbol := "BTCUSDT", price := 150, quantity := 1, timestamp := 5 },
         InMsg.ordersUpdate
           [{ id := "1", symbol := "BTCUSDT", exchange := "BINANCE", side := .buy,
              price := 100, quantity := 1, status := .filled, timestamp := 1 },
            { id := "2", symbol := "BTCUSDT", exchange := "BINANCE", side := .buy,
              price := 200, quantity := 1, status := .filled, timestamp := 2 },
            { id := "3", symbol := "BTCUSDT", exchange := "BINANCE", side := .sell,
              price := 300, quantity := 1, status := .filled, timestamp := 3 }]]).1.positions =
      [("BINANCE:BTCUSDT",
        { symbol := "BTCUSDT", exchange := "BINANCE", quantity := 1,
          averagePrice := 150, unrealizedPnL := 0 })] ∧
    mapGet (updatePositionsV1
        [{ id := "1", symbol := "BTCUSDT", exchange := "BINANCE", side := .buy,
           price := 100, quantity := 1, status := .filled, timestamp := 1 },
         { id := "2", symbol := "BTCUSDT", exchange := "BINANCE", side := .buy,
           price := 200, quantity := 1, status := .filled, timestamp := 2 },
         { id := "3", symbol := "BTCUSDT", exchange := "BINANCE", side := .sell,
           price := 300, quantity := 1, status := .filled, timestamp := 3 }] [])
        "BINANCE:BTCUSDT" =
      some { symbol := "BTCUSDT", exchange := "BINANCE", quantity := 1,
             averagePrice := 150, unrealizedPnL := 0, realizedPnL := 150 } := by
  decide

/-- C4 counterexample: the claim fails as stated because `getStreamName`
maps the TradingView resolution through `INTERVAL_MAP` while
`getSubscriptionKey` keeps the raw resolution, so the identities
(BTCUSDT, kline, "60") and (BTCUSDT, kline, "1h") alias the single wire
stream "btcusdt@kline_1h" under two distinct registry keys. After
subscribing both and unsubscribing the "60" subscriber, the shared stream
is removed from `activeStreams`; the close/reconnect cycle then re-issues
no SUBSCRIBE at all even though subscriber 2 is still registered live
under key "BTCUSDT_kline_1h", so the resubscribed set does not equal the
set of identities with a live subscriber. -/
theorem c4_counterexample :
    getStreamName { symbol := "BTCUSDT", streamType := .kline, interval := some "60" } =
      "btcusdt@kline_1h" ∧
    getStreamName { symbol := "BTCUSDT", streamType := .kline, interval := some "1h" } =
      "btcusdt@kline_1h" ∧
    getSubscriptionKey { symbol := "BTCUSDT", streamType := .kline, interval := some "60" } ≠
      getSubscriptionKey { symbol := "BTCUSDT", streamType := .kline, interval := some "1h" } ∧
    mapGet (applyOps initialAdapterState
        [AdapterOp.subOp { symbol := "BTCUSDT", streamType := .kline, interval := some "60" } 1,
         AdapterOp.subOp { symbol := "BTCUSDT", streamType := .kline, interval := some "1h" } 2,
         AdapterOp.unsubOp { symbol := "BTCUSDT", streamType := .kline, interval := some "60" }
           (some 1)]).subscriptions
      (getSubscriptionKey { symbol := "BTCUSDT", streamType := .kline, interval := some "1h" }) =
      some [2] ∧
    subscribedStreams (reconnectCycle (applyOps initialAdapterState
        [AdapterOp.subOp { symbol := "BTCUSDT", streamType := .kline, interval := some "60" } 1,
         AdapterOp.subOp { symbol := "BTCUSDT", streamType := .kline, interval := some "1h" } 2,
         AdapterOp.unsubOp { symbol := "BTCUSDT", streamType := .kline, interval := some "60" }
           (some 1)])).2 = [] := by
  decide

/-- C4 (amended): for every operation trace whose used identities are
coherent (two of them share a registry key iff they share a wire stream
name — the aliasing of the counterexample excluded), an unexpected close
followed by a successful reconnect leaves the subscription registry
unchanged, and the set of wire-level streams re-subscribed on open is
exactly the set of stream names of used identities that still have a live
subscriber in the registry. -/
theorem c4_amended (ops : List AdapterOp) (hC : CoherentConfigs (opsConfigs ops)) :
    (reconnectCycle (applyOps initialAdapterState ops)).1.subscriptions =
      (applyOps initialAdapterState ops).subscriptions ∧
    (∀ s, s ∈ subscribedStreams (reconnectCycle (applyOps initialAdapterState ops)).2 ↔
       ∃ cfg ∈ opsConfigs ops, getStreamName cfg = s ∧
         (mapGet (applyOps initialAdapterState ops).subscriptions
           (getSubscriptionKey cfg)).getD [] ≠ []) := by
  have hinv : RegistryInv (opsConfigs ops) (applyOps initialAdapterState ops) :=
    registryInv_applyOps (opsConfigs ops) ops initialAdapterState hC
      (fun op hop cfg hcfg => opConfigs_subset_opsConfigs ops op hop cfg hcfg)
      (registryInv_initial _)
  obtain ⟨hsubs, hstreams⟩ := reconnectCycle_spec (applyOps initialAdapterState ops)
  refine ⟨hsubs, fun s => ?_⟩
  rw [hstreams]
  exact hinv.2 s

/-- Witness for C4 (amended) on the concrete coherent trace consisting of a
single trade subscription for ethusdt, instantiated at the stream name
"ethusdt@trade". -/
theorem c4_amended_witness :
    (reconnectCycle (applyOps initialAdapterState
        [AdapterOp.subOp { symbol := "ethusdt", streamType := .trade, interval := none } 1])).1.subscriptions =
      (applyOps initialAdapterState
        [AdapterOp.subOp { symbol := "ethusdt", streamType := .trade, interval := none } 1]).subscriptions ∧
    ("ethusdt@trade" ∈ subscribedStreams (reconnectCycle (applyOps initialAdapterState
        [AdapterOp.subOp { symbol := "ethusdt", streamType := .trade, interval := none } 1])).2 ↔
       ∃ cfg ∈ opsConfigs
           [AdapterOp.subOp { symbol := "ethusdt", streamType := .trade, interval := none } 1],
         getStreamName cfg = "ethusdt@trade" ∧
         (mapGet (applyOps initialAdapterState
             [AdapterOp.subOp { symbol := "ethusdt", streamType := .trade, interval := none } 1]).subscriptions
           (getSubscriptionKey cfg)).getD [] ≠ []) :=
  ⟨(c4_amended
      [AdapterOp.subOp { symbol := "ethusdt", streamType := .trade, interval := none } 1]
      (by unfold CoherentConfigs; decide)).1,
   (c4_amended
      [AdapterOp.subOp { symbol := "ethusdt", streamType := .trade, interval := none } 1]
      (by unfold CoherentConfigs; decide)).2 "ethusdt@trade"⟩

end TradingApp
